import Mathlib

/-!
# Verification of the agent conversation engine (gpt_agent)

Shallow embedding of the repository's structured-message protocol
(`app/protocol.py`), the conversation engine turn loop (`client.py`),
and the paginated search aggregation (`app/tools/everything.py`),
with proofs settling the specification claims.

Modelling conventions:

* Python `str` is Lean `String`; Python `None`-able strings are `Option String`.
* Python truthiness of an optional string (`None` and `""` falsy) is `pyTruthy`.
* JSON values (the loosely-typed `tool_args` payloads and wire objects) are the
  flat inductive `JValue`; arrays and objects are encoded as cons-chains so that
  every recursion over them is plain structural recursion.  Python's `json.loads`
  / `json.dumps` (standard library) are modelled by `jloads` / executable
  emitters faithful to CPython's formatting: default separators, `indent=2`
  pretty printing, `ensure_ascii` escaping.  Numbers are carried as their
  literal token (CPython's int/float normalisation is not modelled; no claim
  depends on it).  CPython corner cases not modelled: lone-surrogate `\uXXXX`
  escapes and the recursion limit.
* pydantic validation of `StructuredMessage` fields (v2 semantics: `Optional[str]`
  accepts only `str`/`None`, `list[Any]` accepts only lists) is performed by the
  parse functions, which return `Except` like the Python code raises.
* The HTTP backend and the tool callables are oracles passed as parameters;
  the engine `LLM.chat` consumes one backend reply per turn and is structurally
  recursive on the remaining reply stream (Python's unbounded recursion has no
  bound in the source; a finite reply stream makes every run finite).
-/

/-- Python truthiness of an optional string: `None` and `""` are falsy. -/
def pyTruthy : Option String → Bool
  | none => false
  | some s => !(s == "")

/-- Literal left brace character (`{`). -/
def lbrace : Char := Char.ofNat 123

/-- Literal right brace character (`}`). -/
def rbrace : Char := Char.ofNat 125

/-- JSON values, flattened: arrays and objects are cons-chains
(`arrCons h t` with `t` another `arrCons` or `arrNil`).  `num` carries the
literal token text. -/
inductive JValue : Type where
  | null : JValue
  | bool : Bool → JValue
  | num : String → JValue
  | str : String → JValue
  | arrNil : JValue
  | arrCons : JValue → JValue → JValue
  | objNil : JValue
  | objCons : String → JValue → JValue → JValue
deriving DecidableEq

/-- The structured four-field message envelope (`StructuredMessage` in
`app/protocol.py`).  pydantic guarantees `tool_args` is a list, so the field
is a Lean list of JSON values. -/
structure StructuredMessage : Type where
  thoughts : Option String
  tool : Option String
  tool_args : List JValue
  response : Option String
deriving DecidableEq

/-- `StructuredMessage.is_valid`: Python
`(self.thoughts and self.tool) or (self.thoughts and self.response)`,
read as a truth value the way the engine uses it. -/
def StructuredMessage.is_valid (m : StructuredMessage) : Bool :=
  (pyTruthy m.thoughts && pyTruthy m.tool) || (pyTruthy m.thoughts && pyTruthy m.response)

/-! ## The JSON text layer (model of Python `json.dumps` / `json.loads`) -/

/-- Hex digit character (lowercase), as CPython's `\uXXXX` escapes emit. -/
def escHexDig (d : Nat) : Char :=
  if d < 10 then Char.ofNat (48 + d) else Char.ofNat (87 + d)

/-- Four lowercase hex digits of `n` (`n < 65536`). -/
def hex4 (n : Nat) : List Char :=
  [escHexDig (n / 4096 % 16), escHexDig (n / 256 % 16), escHexDig (n / 16 % 16), escHexDig (n % 16)]

/-- A `\uXXXX` escape. -/
def uEsc (n : Nat) : List Char := '\\' :: 'u' :: hex4 n

/-- CPython `json` escaping of one character inside a string literal.
`ea` is `ensure_ascii`. -/
def escChar (ea : Bool) (c : Char) : List Char :=
  if c = '"' then ['\\', '"']
  else if c = '\\' then ['\\', '\\']
  else if c = '\n' then ['\\', 'n']
  else if c = '\t' then ['\\', 't']
  else if c = '\r' then ['\\', 'r']
  else if c = Char.ofNat 8 then ['\\', 'b']
  else if c = Char.ofNat 12 then ['\\', 'f']
  else if c.toNat < 32 then uEsc c.toNat
  else if ea && decide (128 ≤ c.toNat) then
    (if c.toNat < 65536 then uEsc c.toNat
     else uEsc (55296 + (c.toNat - 65536) / 1024) ++ uEsc (56320 + (c.toNat - 65536) % 1024))
  else [c]

/-- Escape a whole string body. -/
def escBody (ea : Bool) : List Char → List Char
  | [] => []
  | c :: t => escChar ea c ++ escBody ea t

/-- A JSON string literal including the surrounding quotes. -/
def jstr (ea : Bool) (s : String) : List Char := '"' :: (escBody ea s.data ++ ['"'])

/-- `n` spaces. -/
def spacesL (n : Nat) : List Char := List.replicate n ' '

/-- Whitespace emitted after an opening bracket: nothing when compact,
newline plus the element indent when pretty. -/
def padOpen : Option Nat → List Char
  | none => []
  | some n => '\n' :: spacesL n

/-- Whitespace emitted after a separating comma: one space when compact
(CPython default separators), newline plus the element indent when pretty. -/
def padSep : Option Nat → List Char
  | none => [' ']
  | some n => '\n' :: spacesL n

/-- Whitespace emitted before a closing bracket: nothing when compact,
newline plus the container's own indent when pretty. -/
def padClose : Option Nat → List Char
  | none => []
  | some n => '\n' :: spacesL n

/-- Token texts of the JSON literals and of CPython's float constants. -/
def nullTok : List Char := ['n', 'u', 'l', 'l']

/-- Token text of `true`. -/
def trueTok : List Char := ['t', 'r', 'u', 'e']

/-- Token text of `false`. -/
def falseTok : List Char := ['f', 'a', 'l', 's', 'e']

/-- Token text of `NaN` (accepted by CPython's `json.loads`). -/
def nanTok : List Char := ['N', 'a', 'N']

/-- Token text of `Infinity`. -/
def infTok : List Char := ['I', 'n', 'f', 'i', 'n', 'i', 't', 'y']

/-- Token text of `-Infinity`. -/
def negInfTok : List Char := '-' :: infTok

/-- Emission mode: a full value, or the tail of an array / object chain
(rendered as `, elem , elem ...` without the surrounding brackets). -/
inductive EMode : Type where
  | top : EMode
  | arrTail : EMode
  | objTail : EMode

/-- CPython `json.dumps` output as a character list.  `ind = none` is compact
(default separators `", "` and `": "`); `ind = some n` is `indent=2` pretty
printing with the container currently indented by `n`. -/
def jemit (ea : Bool) : EMode → Option Nat → JValue → List Char
  | .top, _, .null => nullTok
  | .top, _, .bool true => trueTok
  | .top, _, .bool false => falseTok
  | .top, _, .num t => t.data
  | .top, _, .str s => jstr ea s
  | .top, _, .arrNil => ['[', ']']
  | .top, ind, .arrCons h t =>
      '[' :: (padOpen (ind.map (· + 2)) ++ jemit ea .top (ind.map (· + 2)) h
        ++ jemit ea .arrTail (ind.map (· + 2)) t ++ padClose ind ++ [']'])
  | .top, _, .objNil => [lbrace, rbrace]
  | .top, ind, .objCons k v t =>
      lbrace :: (padOpen (ind.map (· + 2)) ++ jstr ea k ++ ':' :: ' ' ::
        (jemit ea .top (ind.map (· + 2)) v ++ jemit ea .objTail (ind.map (· + 2)) t
          ++ padClose ind ++ [rbrace]))
  | .arrTail, _, .arrNil => []
  | .arrTail, ind, .arrCons h t =>
      ',' :: (padSep ind ++ jemit ea .top ind h ++ jemit ea .arrTail ind t)
  | .objTail, _, .objNil => []
  | .objTail, ind, .objCons k v t =>
      ',' :: (padSep ind ++ jstr ea k ++ ':' :: ' ' :: (jemit ea .top ind v ++ jemit ea .objTail ind t))
  | .arrTail, _, _ => []
  | .objTail, _, _ => []

/-- `json.dumps` as a string: `ea` is `ensure_ascii`; `indent = some 0` models
`indent=2` starting at column zero, `none` the compact default. -/
def pyJsonDumps (ea : Bool) (indent : Option Nat) (v : JValue) : String :=
  String.mk (jemit ea .top indent v)

/-- JSON whitespace (exactly the four characters CPython's scanner skips). -/
def jWs (c : Char) : Bool := c = ' ' || c = '\t' || c = '\n' || c = '\r'

/-- Skip leading JSON whitespace. -/
def skipWs (l : List Char) : List Char := l.dropWhile jWs

/-- Characters that can occur in a number token. -/
def isNumChar (c : Char) : Bool :=
  c.isDigit || c = '-' || c = '+' || c = '.' || c = 'e' || c = 'E'

/-- One or more digits running to the end of the token. -/
def digits1All : List Char → Bool
  | [] => false
  | c :: rest => c.isDigit && rest.all Char.isDigit

/-- Exponent digits with an optional sign. -/
def expDigits : List Char → Bool
  | '+' :: rest => digits1All rest
  | '-' :: rest => digits1All rest
  | rest => digits1All rest

/-- Optional exponent part then end of token. -/
def numExpTail : List Char → Bool
  | [] => true
  | 'e' :: rest => expDigits rest
  | 'E' :: rest => expDigits rest
  | _ => false

/-- Optional fraction part then optional exponent then end of token. -/
def numFracTail : List Char → Bool
  | '.' :: rest =>
    (match rest with
     | c :: _ => c.isDigit && numExpTail (rest.dropWhile Char.isDigit)
     | [] => false)
  | rest => numExpTail rest

/-- Integer part of a number token (`0` or a nonzero digit run, no leading
zeros), then fraction/exponent. -/
def intPart : List Char → Bool
  | '0' :: rest => numFracTail rest
  | c :: rest => c.isDigit && numFracTail (rest.dropWhile Char.isDigit)
  | [] => false

/-- The number-token grammar of JSON (CPython's `NUMBER_RE`). -/
def isNumTokL : List Char → Bool
  | '-' :: rest => intPart rest
  | rest => intPart rest

/-- Named escapes after a backslash. -/
def escNamed (c : Char) : Option Char :=
  if c = '"' then some '"'
  else if c = '\\' then some '\\'
  else if c = '/' then some '/'
  else if c = 'b' then some (Char.ofNat 8)
  else if c = 'f' then some (Char.ofNat 12)
  else if c = 'n' then some '\n'
  else if c = 'r' then some '\r'
  else if c = 't' then some '\t'
  else none

/-- Value of one hex digit character. -/
def hexDigVal (c : Char) : Option Nat :=
  if 48 ≤ c.toNat ∧ c.toNat ≤ 57 then some (c.toNat - 48)
  else if 97 ≤ c.toNat ∧ c.toNat ≤ 102 then some (c.toNat - 87)
  else if 65 ≤ c.toNat ∧ c.toNat ≤ 70 then some (c.toNat - 55)
  else none

/-- Four hex digits, most significant first. -/
def parse4Hex : List Char → Option (Nat × List Char)
  | a :: b :: c :: d :: rest =>
    match hexDigVal a, hexDigVal b, hexDigVal c, hexDigVal d with
    | some va, some vb, some vc, some vd => some (((va * 16 + vb) * 16 + vc) * 16 + vd, rest)
    | _, _, _, _ => none
  | _ => none

/-- Scan a JSON string body after the opening quote: returns the decoded
characters and the input after the closing quote.  Strict mode: raw control
characters are rejected; `\uXXXX` surrogate pairs are combined (a lone
surrogate escape is rejected — CPython keeps it, a corner this model omits). -/
def parseStrBody (fuel : Nat) (l : List Char) : Except String (List Char × List Char) :=
  match fuel with
  | 0 => .error "JSONDecodeError"
  | f + 1 =>
    match l with
    | [] => .error "JSONDecodeError"
    | c :: rest =>
      if c = '"' then .ok ([], rest)
      else if c = '\\' then
        match rest with
        | [] => .error "JSONDecodeError"
        | e :: r =>
          if e = 'u' then
            match parse4Hex r with
            | none => .error "JSONDecodeError"
            | some (n, r2) =>
              if 55296 ≤ n ∧ n < 56320 then
                match r2 with
                | b1 :: b2 :: r3 =>
                  if b1 = '\\' ∧ b2 = 'u' then
                    match parse4Hex r3 with
                    | some (n2, r4) =>
                      if 56320 ≤ n2 ∧ n2 < 57344 then
                        match parseStrBody f r4 with
                        | .ok (cs, r5) =>
                          .ok (Char.ofNat (65536 + (n - 55296) * 1024 + (n2 - 56320)) :: cs, r5)
                        | .error e2 => .error e2
                      else .error "JSONDecodeError"
                    | none => .error "JSONDecodeError"
                  else .error "JSONDecodeError"
                | _ => .error "JSONDecodeError"
              else if 56320 ≤ n ∧ n < 57344 then .error "JSONDecodeError"
              else
                match parseStrBody f r2 with
                | .ok (cs, r5) => .ok (Char.ofNat n :: cs, r5)
                | .error e2 => .error e2
          else
            match escNamed e with
            | some c2 =>
              match parseStrBody f r with
              | .ok (cs, r5) => .ok (c2 :: cs, r5)
              | .error e2 => .error e2
            | none => .error "JSONDecodeError"
      else if c.toNat < 32 then .error "JSONDecodeError"
      else
        match parseStrBody f rest with
        | .ok (cs, r5) => .ok (c :: cs, r5)
        | .error e2 => .error e2

/-- Parsing mode: a full value, the elements of an array after `[`, or the
members of an object after the opening brace. -/
inductive PMode : Type where
  | val : PMode
  | items : PMode
  | members : PMode

/-- The recursive JSON scanner (model of CPython's `json.scanner`), fuelled. -/
def parseF (fuel : Nat) (mode : PMode) (l : List Char) : Except String (JValue × List Char) :=
  match fuel with
  | 0 => .error "JSONDecodeError"
  | f + 1 =>
    match mode with
    | .val =>
      let l1 := skipWs l
      match l1 with
      | [] => .error "JSONDecodeError"
      | c :: rest =>
        if c = '"' then
          match parseStrBody (rest.length + 1) rest with
          | .ok (cs, r) => .ok (.str (String.mk cs), r)
          | .error e2 => .error e2
        else if c = '[' then
          let r1 := skipWs rest
          match r1 with
          | ']' :: r2 => .ok (.arrNil, r2)
          | _ => parseF f .items r1
        else if c = lbrace then
          let r1 := skipWs rest
          match r1 with
          | c2 :: _ =>
            if c2 = rbrace then .ok (.objNil, r1.drop 1) else parseF f .members r1
          | [] => .error "JSONDecodeError"
        else if trueTok.isPrefixOf l1 then .ok (.bool true, l1.drop 4)
        else if falseTok.isPrefixOf l1 then .ok (.bool false, l1.drop 5)
        else if nullTok.isPrefixOf l1 then .ok (.null, l1.drop 4)
        else if nanTok.isPrefixOf l1 then .ok (.num (String.mk nanTok), l1.drop 3)
        else if infTok.isPrefixOf l1 then .ok (.num (String.mk infTok), l1.drop 8)
        else if negInfTok.isPrefixOf l1 then .ok (.num (String.mk negInfTok), l1.drop 9)
        else
          let tok := l1.takeWhile isNumChar
          if isNumTokL tok then .ok (.num (String.mk tok), l1.drop tok.length)
          else .error "JSONDecodeError"
    | .items =>
      match parseF f .val l with
      | .error e2 => .error e2
      | .ok (v, r) =>
        let r1 := skipWs r
        match r1 with
        | ',' :: r2 =>
          match parseF f .items r2 with
          | .ok (tl, r3) => .ok (.arrCons v tl, r3)
          | .error e2 => .error e2
        | ']' :: r2 => .ok (.arrCons v .arrNil, r2)
        | _ => .error "JSONDecodeError"
    | .members =>
      let l1 := skipWs l
      match l1 with
      | [] => .error "JSONDecodeError"
      | c :: rest =>
        if c = '"' then
          match parseStrBody (rest.length + 1) rest with
          | .error e2 => .error e2
          | .ok (k, r) =>
            let r1 := skipWs r
            match r1 with
            | ':' :: r2 =>
              match parseF f .val r2 with
              | .error e2 => .error e2
              | .ok (v, r3) =>
                let r4 := skipWs r3
                match r4 with
                | c2 :: r5 =>
                  if c2 = ',' then
                    match parseF f .members r5 with
                    | .ok (tl, r6) => .ok (.objCons (String.mk k) v tl, r6)
                    | .error e2 => .error e2
                  else if c2 = rbrace then .ok (.objCons (String.mk k) v .objNil, r5)
                  else .error "JSONDecodeError"
                | [] => .error "JSONDecodeError"
            | _ => .error "JSONDecodeError"
        else .error "JSONDecodeError"

/-- Model of `json.loads`: parse one value, then require only whitespace to
the end (CPython's "Extra data" check). -/
def jloads (s : String) : Except String JValue :=
  match parseF (2 * s.length + 2) .val s.data with
  | .error e2 => .error e2
  | .ok (v, rest) => if skipWs rest = [] then .ok v else .error "JSONDecodeError"

deriving instance DecidableEq for Except

/-! ## Text helpers (models of `str.strip`, `str.lower`, and the tag regexes) -/

/-- Python `str.strip()` whitespace (ASCII portion). -/
def pySpaceC (c : Char) : Bool :=
  c = ' ' || c = '\t' || c = '\n' || c = '\r' || c = Char.ofNat 11 || c = Char.ofNat 12

/-- Python `str.strip()`. -/
def pyStrip (s : String) : String :=
  String.mk (((s.data.dropWhile pySpaceC).reverse.dropWhile pySpaceC).reverse)

/-- Python `str.lower()` (ASCII portion, which is all the code relies on). -/
def pyLower (s : String) : String := String.mk (s.data.map Char.toLower)

/-- Lowercase a character list for case-insensitive matching. -/
def lowerL (l : List Char) : List Char := l.map Char.toLower

/-- Index of the first occurrence of `needle` as a contiguous sublist. -/
def findSub (needle : List Char) : List Char → Option Nat
  | [] => if needle.isPrefixOf ([] : List Char) then some 0 else none
  | c :: t =>
    if needle.isPrefixOf (c :: t) then some 0
    else (findSub needle t).map (· + 1)

/-- Work loop of `tagSearch`: `low` is the lowercased text, `orig` the original
text at the same position; finds the leftmost position where the opening tag
matches and a closing tag follows, and returns the original characters
captured between them (shortest match, as the lazy `(.*?)` does). -/
def tagSearchGo (openT closeT : List Char) : List Char → List Char → Option (List Char)
  | [], orig =>
    if openT.isPrefixOf ([] : List Char) then
      (findSub closeT []).map (fun j => (orig.drop openT.length).take j)
    else none
  | c :: lt, orig =>
    if openT.isPrefixOf (c :: lt) then
      (findSub closeT ((c :: lt).drop openT.length)).map
        (fun j => (orig.drop openT.length).take j)
    else
      match orig with
      | _ :: ot => tagSearchGo openT closeT lt ot
      | [] => none

/-- Model of `re.search` for the pattern `<tag>(.*?)</tag>` with
`IGNORECASE | MULTILINE | DOTALL` (the four field regexes of
`app/protocol.py`): returns group 1 of the leftmost match. -/
def tagSearch (tag : String) (text : String) : Option String :=
  (tagSearchGo (('<' :: tag.data) ++ ['>']) (('<' :: '/' :: tag.data) ++ ['>'])
    (lowerL text.data) text.data).map String.mk

/-! ## The two conversation protocols (`app/protocol.py`) -/

/-- Field extraction in `XMLConversationProtocol.parse`:
`match.group(1).strip()` when the tag regex matches. -/
def xmlExtract (tag : String) (text : String) : Option String :=
  (tagSearch tag text).map pyStrip

/-- The `tool_args` value scanned by `XMLConversationProtocol.parse`:
JSON-decode the captured text, degrading to `[]` when the tag is absent or
its content is not valid JSON (`except json.JSONDecodeError`). -/
def xmlArgsVal (text : String) : JValue :=
  match xmlExtract "tool_args" text with
  | some s =>
    match jloads s with
    | .ok v => v
    | .error _ => .arrNil
  | none => .arrNil

/-- Read an array chain as a Lean list (pydantic `list[Any]` validation:
anything that is not a JSON array is rejected). -/
def jArrToList : JValue → Option (List JValue)
  | .arrNil => some []
  | .arrCons h t => (jArrToList t).map (h :: ·)
  | _ => none

/-- A Lean list as an array chain. -/
def jOfList : List JValue → JValue
  | [] => .arrNil
  | h :: t => .arrCons h (jOfList t)

/-- An optional string as the JSON value pydantic sees for it. -/
def jOfOpt : Option String → JValue
  | none => .null
  | some s => .str s

/-- Python `"{}".format(x)` of an optional string: `None` prints as `None`. -/
def pyStrOfOpt : Option String → String
  | none => "None"
  | some s => s

/-- `XMLConversationProtocol.parse`.  Absent tags give absent fields; an empty
or absent `response` is replaced by `thoughts`; the only failure is pydantic
rejecting a `tool_args` payload that decoded to a non-array. -/
def XMLConversationProtocol.parse (text : String) : Except String StructuredMessage :=
  let thoughts := xmlExtract "thoughts" text
  let tool := xmlExtract "tool" text
  let response0 := xmlExtract "response" text
  let response := if pyTruthy response0 then response0 else thoughts
  match jArrToList (xmlArgsVal text) with
  | some xs => .ok ⟨thoughts, tool, xs, response⟩
  | none => .error "ValidationError"

/-- `XMLConversationProtocol.serialize`.  Python evaluates
`message.tool.lower()` unconditionally, so `tool = None` raises
`AttributeError` before any text is produced; `tool_args` is rendered by
`json.dumps` with its defaults (`ensure_ascii=True`, compact). -/
def XMLConversationProtocol.serialize (m : StructuredMessage) (new_line : Bool) :
    Except String String :=
  match m.tool with
  | none => .error "AttributeError"
  | some t =>
    let nl := if new_line then "\n" else ""
    .ok ("<thoughts>" ++ pyStrOfOpt m.thoughts ++ "</thoughts>" ++ nl
      ++ "<tool>" ++ pyLower t ++ "</tool>" ++ nl
      ++ "<tool_args>" ++ pyJsonDumps true none (jOfList m.tool_args) ++ "</tool_args>" ++ nl
      ++ "<response>" ++ pyStrOfOpt m.response ++ "</response>")

/-- Is this JSON value an object (a Python `dict` after `json.loads`)? -/
def jIsObjB : JValue → Bool
  | .objNil => true
  | .objCons _ _ _ => true
  | _ => false

/-- `dict.get` on a parsed JSON object: last occurrence wins, as later
duplicate keys overwrite earlier ones in a Python dict literal. -/
def dgetJ : JValue → String → Option JValue
  | .objCons k v t, key =>
    (match dgetJ t key with
     | some r => some r
     | none => if k = key then some v else none)
  | _, _ => none

/-- pydantic validation of an `Optional[str]` field from `data.get(...)`:
absent keys and `null` become `None`; strings pass; anything else is rejected. -/
def pyFieldToOptStr : Option JValue → Except String (Option String)
  | none => .ok none
  | some .null => .ok none
  | some (.str s) => .ok (some s)
  | some _ => .error "ValidationError"

/-- pydantic validation of the `list[Any]` field `tool_args`: only a JSON
array passes; an absent key (Python `None`) is rejected. -/
def pyFieldToList : Option JValue → Except String (List JValue)
  | some v =>
    (match jArrToList v with
     | some xs => .ok xs
     | none => .error "ValidationError")
  | none => .error "ValidationError"

/-- `JSONConversationProtocol.parse`: the whole text must be valid JSON
(else `json.JSONDecodeError` propagates), `data.get` requires a dict (else
`AttributeError`), and pydantic validates the four fields. -/
def JSONConversationProtocol.parse (text : String) : Except String StructuredMessage :=
  match jloads text with
  | .error _ => .error "JSONDecodeError"
  | .ok data =>
    if jIsObjB data then
      match pyFieldToOptStr (dgetJ data "thoughts"), pyFieldToOptStr (dgetJ data "tool"),
            pyFieldToList (dgetJ data "tool_args"), pyFieldToOptStr (dgetJ data "response") with
      | .ok th, .ok tv, .ok ta, .ok rv => .ok ⟨th, tv, ta, rv⟩
      | _, _, _, _ => .error "ValidationError"
    else .error "AttributeError"

/-- The object literal `JSONConversationProtocol.serialize` passes to
`json.dumps`: all four keys, in source order, `null` for absent fields. -/
def msgObj (m : StructuredMessage) : JValue :=
  .objCons "thoughts" (jOfOpt m.thoughts) (.objCons "tool" (jOfOpt m.tool)
    (.objCons "tool_args" (jOfList m.tool_args) (.objCons "response" (jOfOpt m.response) .objNil)))

/-- `JSONConversationProtocol.serialize`: `json.dumps` of the four-key object,
`ensure_ascii=False`, `indent=2` exactly when `new_line`. -/
def JSONConversationProtocol.serialize (m : StructuredMessage) (new_line : Bool) :
    Except String String :=
  .ok (pyJsonDumps false (if new_line then some 0 else none) (msgObj m))

/-! ## The conversation engine (`client.py`) -/

/-- One transcript entry (`{"role": ..., "content": ...}`). -/
structure ChatEntry : Type where
  role : String
  content : String
deriving DecidableEq

/-- How a Python callable is invoked: `f(*args)` or `f(**kwargs)`. -/
inductive PyArgs : Type where
  | positional : List JValue → PyArgs
  | keyword : List (String × JValue) → PyArgs

/-- A registered tool (`LLMTool` in `app/tools/__init__.py`); the declared
parameter schema is model-facing text only and is not modelled. -/
structure LLMTool : Type where
  name : String
  description : String
  fn : PyArgs → Except String JValue

/-- How one `LLM.chat` call ends: a returned message, the fatal
`ValueError` on an invalid message, an uncaught exception propagating out of
a corrective `serialize`, or running out of backend replies. -/
inductive ChatOutcome : Type where
  | ok : StructuredMessage → ChatOutcome
  | invalidResponse : ChatOutcome
  | uncaught : String → ChatOutcome
  | backendErr : ChatOutcome
deriving DecidableEq

/-- A conversation protocol as the engine consumes it. -/
structure ConversationProtocol : Type where
  parse : String → Except String StructuredMessage
  serialize : StructuredMessage → Bool → Except String String

/-- The tag-delimited protocol instance. -/
def xmlProtocol : ConversationProtocol :=
  ⟨XMLConversationProtocol.parse, XMLConversationProtocol.serialize⟩

/-- The JSON-object protocol instance. -/
def jsonProtocol : ConversationProtocol :=
  ⟨JSONConversationProtocol.parse, JSONConversationProtocol.serialize⟩

/-- Python `repr` of a parsed-JSON value, approximately (string quoting
simplified); used only inside synthetic prompt text, which no theorem
inspects. -/
def pyReprM : Bool → JValue → String
  | false, .null => "None"
  | false, .bool true => "True"
  | false, .bool false => "False"
  | false, .num t => t
  | false, .str s => "'" ++ s ++ "'"
  | false, .arrNil => "[]"
  | false, .arrCons h t => "[" ++ pyReprM false h ++ pyReprM true t ++ "]"
  | false, .objNil => "\x7b\x7d"
  | false, .objCons k v t =>
      "\x7b" ++ ("'" ++ k ++ "'") ++ ": " ++ pyReprM false v ++ pyReprM true t ++ "\x7d"
  | true, .arrCons h t => ", " ++ pyReprM false h ++ pyReprM true t
  | true, .objCons k v t => ", " ++ ("'" ++ k ++ "'") ++ ": " ++ pyReprM false v ++ pyReprM true t
  | true, _ => ""

/-- Python `str` of a parsed-JSON value. -/
def pyStr : JValue → String
  | .str s => s
  | v => pyReprM false v

/-- Tool invocation as `LLM.chat` performs it: positional when `tool_args`
is a list, keyword when it is a mapping; any other shape is the `TypeError`
CPython raises for `f(**non_mapping)`. -/
def invokeWith (t : LLMTool) (args : JValue) : Except String JValue :=
  match jArrToList args with
  | some xs => t.fn (.positional xs)
  | none =>
    if jIsObjB args then
      t.fn (.keyword (jObjToPairs args))
    else .error "TypeError"
where
  /-- The pairs of an object chain. -/
  jObjToPairs : JValue → List (String × JValue)
    | .objCons k v t => (k, v) :: jObjToPairs t
    | _ => []

/-- `LLM.get_tool_by_name`: first registered tool with the given name. -/
def LLM.get_tool_by_name : List LLMTool → String → Option LLMTool
  | [], _ => none
  | t :: rest, name => if t.name = name then some t else LLM.get_tool_by_name rest name

/-- The corrective message the engine synthesizes on a parse failure
(`tool=None`, `tool_args=[]`, `response=None`). -/
def parseFailMsg (content e : String) : StructuredMessage :=
  ⟨some ("\"" ++ content ++ "\" cannot be processed. Error: " ++ e
    ++ ", revisioning further with my thoughts..."), none, [], none⟩

/-- The corrective message the engine synthesizes when a tool raises. -/
def toolFailMsg (tool e : String) : StructuredMessage :=
  ⟨some ("\"" ++ tool ++ "\" tool returned error: \"" ++ e
    ++ "\", proceeding further with my thoughts..."), none, [], none⟩

/-- The continuation message the engine synthesizes from a tool result. -/
def toolResultMsg (tool : String) (res : JValue) : StructuredMessage :=
  ⟨some ("\"" ++ tool ++ "\" tool returned result: \"" ++ pyStr res
    ++ "\", proceeding further with my thoughts..."), none, [], none⟩

/-- `LLM.chat` (`client.py` lines 141–221).  The backend is a finite stream of
reply texts, one consumed per turn; the transcript, the next prompt and its
role are explicit state.  Returns the outcome, the final transcript, and the
unconsumed replies.  Faithful control flow: parse failure retries through a
serialized corrective message (whose own failure propagates, `uncaught`);
an invalid message raises; a found tool is invoked and the loop continues on
its result or error; an unknown tool falls through and returns the message. -/
def LLM.chat (proto : ConversationProtocol) (tools : List LLMTool) :
    List String → List ChatEntry → String → String →
      ChatOutcome × List ChatEntry × List String
  | [], history, prompt, role => (.backendErr, history ++ [⟨role, prompt⟩], [])
  | reply :: rest, history, prompt, role =>
    let h1 := history ++ [⟨role, prompt⟩, ⟨"assistant", reply⟩]
    match proto.parse reply with
    | .error e =>
      (match proto.serialize (parseFailMsg reply e) false with
       | .error e2 => (.uncaught e2, h1, rest)
       | .ok s => LLM.chat proto tools rest h1 s "user")
    | .ok msg =>
      if !msg.is_valid then (.invalidResponse, h1, rest)
      else if pyTruthy msg.tool then
        (match LLM.get_tool_by_name tools (msg.tool.getD "") with
         | some t =>
           (match invokeWith t (jOfList msg.tool_args) with
            | .error e =>
              (match proto.serialize (toolFailMsg (msg.tool.getD "") e) false with
               | .error e2 => (.uncaught e2, h1, rest)
               | .ok s => LLM.chat proto tools rest h1 s "user")
            | .ok res =>
              (match proto.serialize (toolResultMsg (msg.tool.getD "") res) false with
               | .error e2 => (.uncaught e2, h1, rest)
               | .ok s => LLM.chat proto tools rest h1 s "user"))
         | none => (.ok msg, h1, rest))
      else (.ok msg, h1, rest)

/-! ## The paginated search aggregator (`app/tools/everything.py`, `search_files`) -/

/-- Python `range(start, stop, 32)`. -/
def pyRange32 (start stop : Nat) : List Nat :=
  List.range' start ((stop - start + 31) / 32) 32

/-- The fetch loop of the synchronous `search_files`: `page` is the oracle
composing `fetch_page_sync` and `parse_page` (results of a page, and the
maximum offset its pagination control names).  The queue is FIFO; an offset
is skipped if already seen, otherwise marked seen, fetched, recorded, and the
newly disclosed offsets not yet seen are appended.  Fuelled for totality. -/
def searchGo {ρ : Type} (page : Nat → List ρ × Nat) :
    Nat → List Nat → List Nat → List (Nat × List ρ) → Option (List (Nat × List ρ))
  | 0, _, _, _ => none
  | _ + 1, [], _, acc => some acc
  | fuel + 1, o :: q, seen, acc =>
    if o ∈ seen then searchGo page fuel q seen acc
    else
      searchGo page fuel
        (q ++ (pyRange32 (o + 32) ((page o).2 + 1)).filter (fun n => !((o :: seen).contains n)))
        (o :: seen) (acc ++ [(o, (page o).1)])

/-- Insert into a sorted list of offsets. -/
def insertSorted (n : Nat) : List Nat → List Nat
  | [] => [n]
  | m :: t => if n ≤ m then n :: m :: t else m :: insertSorted n t

/-- Ascending sort of the fetched offsets (`sorted(files_by_offset)`). -/
def sortNat : List Nat → List Nat
  | [] => []
  | n :: t => insertSorted n (sortNat t)

/-- Lookup in the per-offset results (offsets are recorded at most once). -/
def accGet {ρ : Type} : List (Nat × List ρ) → Nat → List ρ
  | [], _ => []
  | (k, v) :: t, o => if k = o then v else accGet t o

/-- `search_files(query)`: run the fetch loop from offset 0, then concatenate
the per-offset results in ascending offset order.  Returns the fetched
offsets in fetch order alongside the aggregated results. -/
def search_files {ρ : Type} (page : Nat → List ρ × Nat) (fuel : Nat) :
    Option (List Nat × List ρ) :=
  (searchGo page fuel [0] [] []).map fun acc =>
    (acc.map Prod.fst, ((sortNat (acc.map Prod.fst)).map (accGet acc)).flatten)

/-! ## Well-formedness, fixtures, and claim-level predicates -/

/-- Is this JSON value an array? -/
def jIsArrB : JValue → Bool
  | .arrNil => true
  | .arrCons _ _ => true
  | _ => false

/-- Well-formed JSON values: number tokens obey the JSON number grammar and
array/object chains are properly terminated.  Every value arising from a
Python object satisfies this. -/
def jwf : JValue → Bool
  | .num t => isNumTokL t.data && t.data.all isNumChar
  | .arrCons h t => jwf h && jIsArrB t && jwf t
  | .objCons _ v t => jwf v && jIsObjB t && jwf t
  | _ => true

/-- Structural size driving the parser-fuel bound. -/
def jsize : JValue → Nat
  | .arrCons h t => 1 + jsize h + jsize t
  | .objCons _ v t => 1 + jsize v + jsize t
  | _ => 1

/-- The serialize/parse/serialize round trip of the spec, in one predicate:
serialization succeeds with wire text `s`, `s` parses back, and the parsed
message serializes to the same `s`. -/
def RoundTrips (proto : ConversationProtocol) (m : StructuredMessage) (pretty : Bool) : Prop :=
  ∃ s m2, proto.serialize m pretty = .ok s ∧ proto.parse s = .ok m2 ∧
    proto.serialize m2 pretty = .ok s

/-- A one-parameter echo tool, as in the spec's dispatch property. -/
def echoTool : LLMTool :=
  ⟨"echo", "returns its single argument", fun a =>
    match a with
    | .positional [x] => .ok x
    | .positional _ => .error "TypeError"
    | .keyword [("x", v)] => .ok v
    | .keyword _ => .error "TypeError"⟩

/-- A tool whose invocation always fails. -/
def boomTool : LLMTool := ⟨"boom", "always raises", fun _ => .error "RuntimeError"⟩

/-- A JSON-variant reply requesting the unregistered tool `ghost`. -/
def ghostReply : String :=
  "\x7b\"thoughts\": \"x\", \"tool\": \"ghost\", \"tool_args\": [], \"response\": null\x7d"

/-- A JSON-variant reply with thoughts only (`need date`). -/
def needDateJson : String :=
  "\x7b\"thoughts\": \"need date\", \"tool\": null, \"tool_args\": [], \"response\": null\x7d"

/-- Shapes pydantic accepts for an `Optional[str]` field read via
`dict.get`: key absent, `null`, or a string. -/
def OptStrOk (o : Option JValue) : Prop :=
  o = none ∨ o = some .null ∨ ∃ s, o = some (.str s)

/-- Shapes pydantic accepts for the `list[Any]` field: the key present with
an array value. -/
def ListOk (o : Option JValue) : Prop :=
  ∃ v xs, o = some v ∧ jArrToList v = some xs

/-- The keys of an object chain, in order. -/
def objKeys : JValue → List String
  | .objCons k _ t => k :: objKeys t
  | _ => []

/-- What may legally follow an emitted JSON value so that the scanner stops
reading it: end of input or a character that cannot extend a number token
(every delimiter and whitespace character qualifies). -/
def StopTok : List Char → Prop
  | [] => True
  | c :: _ => isNumChar c = false

/-! ## Shared lemmas -/

/-- An optional string is falsy exactly when it is absent or empty. -/
theorem pyTruthy_eq_false_iff (o : Option String) :
    pyTruthy o = false ↔ o = none ∨ o = some "" := by
  cases o with
  | none => simp [pyTruthy]
  | some s => simp [pyTruthy]

/-- Array chains built from Lean lists read back as the same list. -/
theorem jArrToList_jOfList (xs : List JValue) : jArrToList (jOfList xs) = some xs := by
  induction xs with
  | nil => rfl
  | cons h t ih => simp [jOfList, jArrToList, ih]

/-! ## Claim theorems -/

/-- Claim C1: a `StructuredMessage` is valid exactly when thoughts is truthy
together with a truthy tool or a truthy response, and a message with absent
or empty thoughts is invalid regardless of the other fields. -/
theorem C1_is_valid_iff (m : StructuredMessage) :
    (m.is_valid = true ↔
      (pyTruthy m.thoughts = true ∧ pyTruthy m.tool = true) ∨
      (pyTruthy m.thoughts = true ∧ pyTruthy m.response = true)) ∧
    ((m.thoughts = none ∨ m.thoughts = some "") → m.is_valid = false) := by
  constructor
  · simp [StructuredMessage.is_valid]
  · rintro (h | h) <;> simp [StructuredMessage.is_valid, h, pyTruthy]

/-- Witness for C1 at a concrete message with absent thoughts. -/
theorem C1_is_valid_iff_witness :
    (StructuredMessage.mk none (some "t") [] (some "r")).is_valid = false :=
  (C1_is_valid_iff _).2 (Or.inl rfl)

/-- Counterexample to Claim C2 as stated: the valid message
`thoughts="t"`, `tool=None`, `response="r"` cannot even be serialized by the
tag-delimited variant — `serialize` raises `AttributeError` for both pretty
flags, so no round trip exists for it. -/
theorem C2_roundtrip_cex :
    (StructuredMessage.mk (some "t") none [] (some "r")).is_valid = true ∧
    XMLConversationProtocol.serialize ⟨some "t", none, [], some "r"⟩ false
      = .error "AttributeError" ∧
    XMLConversationProtocol.serialize ⟨some "t", none, [], some "r"⟩ true
      = .error "AttributeError" := by
  decide

/-- Counterexample to Claim C3 as stated: under the JSON-object variant a
reply with `thoughts="need date"` and absent tool/response parses with
`response = None` (no fallback from thoughts), and the engine's turn ends in
the fatal invalid-response error, not with `"need date"`. -/
theorem C3_fallback_cex :
    JSONConversationProtocol.parse needDateJson = .ok ⟨some "need date", none, [], none⟩ ∧
    (LLM.chat jsonProtocol [] [needDateJson] [] "q" "user").1 = .invalidResponse := by
  decide

/-- Counterexample to Claim C4 as stated: the tag-delimited variant does fail
outer parse on some input — a `tool_args` tag whose content is valid JSON but
not an array is rejected by message validation. -/
theorem C4_outer_parse_cex :
    XMLConversationProtocol.parse "<tool_args>5</tool_args>" = .error "ValidationError" := by
  decide

/-- Counterexample to Claim C5 as stated: the empty JSON object is well
formed, carries the empty subset of the four keys, and yet parsing fails —
pydantic rejects the absent `tool_args`. -/
theorem C5_optional_keys_cex :
    jloads "\x7b\x7d" = .ok .objNil ∧
    JSONConversationProtocol.parse "\x7b\x7d" = .error "ValidationError" := by
  decide

/-- Claim C6: a list-shaped `tool_args` is dispatched positionally (the
registered `echo` invoked with `["a"]` returns `"a"`; in general the
capability receives the list positionally), a mapping is dispatched by
keyword, and requesting the unregistered `ghost` ends the loop without
raising, returning the message as-is (`tool="ghost"`, `response` absent). -/
theorem C6_tool_dispatch :
    invokeWith echoTool (jOfList [JValue.str "a"]) = .ok (.str "a") ∧
    (∀ (t : LLMTool) (xs : List JValue), invokeWith t (jOfList xs) = t.fn (.positional xs)) ∧
    (∀ (t : LLMTool) (k : String) (v tl : JValue),
      invokeWith t (.objCons k v tl)
        = t.fn (.keyword ((k, v) :: invokeWith.jObjToPairs tl))) ∧
    LLM.chat jsonProtocol [echoTool] [ghostReply] [] "find it" "user"
      = (.ok ⟨some "x", some "ghost", [], none⟩,
         [⟨"user", "find it"⟩, ⟨"assistant", ghostReply⟩], []) := by
  refine ⟨by decide, ?_, ?_, by decide⟩
  · intro t xs
    simp [invokeWith, jArrToList_jOfList]
  · intro t k v tl
    rfl

/-- Claim C9: the tag-delimited serializer dereferences `tool`
unconditionally, so it raises `AttributeError` on every message with
`tool=None`; both corrective retry messages (parse failure, tool failure) set
`tool=None`; and concretely, under the tag variant both the parse-failure
retry and the tool-failure retry die with that uncaught `AttributeError`. -/
theorem C9_xml_serialize_requires_tool :
    (∀ (m : StructuredMessage) (nl : Bool), m.tool = none →
      XMLConversationProtocol.serialize m nl = .error "AttributeError") ∧
    (∀ content e, (parseFailMsg content e).tool = none) ∧
    (∀ tool e, (toolFailMsg tool e).tool = none) ∧
    (LLM.chat xmlProtocol [] ["<tool_args>5</tool_args>"] [] "p" "user").1
      = .uncaught "AttributeError" ∧
    (LLM.chat xmlProtocol [boomTool]
      ["<thoughts>t</thoughts><tool>boom</tool><tool_args>[]</tool_args>"] [] "p" "user").1
      = .uncaught "AttributeError" := by
  refine ⟨?_, fun _ _ => rfl, fun _ _ => rfl, by decide, by decide⟩
  intro m nl h
  simp [XMLConversationProtocol.serialize, h]

/-- Witness for C9 at a concrete message with `tool=None`. -/
theorem C9_xml_serialize_requires_tool_witness :
    XMLConversationProtocol.serialize ⟨some "t", none, [], some "r"⟩ false
      = .error "AttributeError" :=
  C9_xml_serialize_requires_tool.1 _ false rfl

/-- Claim C10: every message the tag-delimited parser produces with truthy
thoughts is valid (the parser copies thoughts into an absent or empty
response), so the fatal invalid-response path is reachable only when thoughts
is missing or empty. -/
theorem C10_xml_nonempty_thoughts_valid :
    ∀ (text : String) (m : StructuredMessage),
      XMLConversationProtocol.parse text = .ok m →
      (pyTruthy m.thoughts = true → m.is_valid = true) ∧
      (m.is_valid = false → m.thoughts = none ∨ m.thoughts = some "") := by
  intro text m h
  simp only [XMLConversationProtocol.parse] at h
  split at h
  case h_2 => exact absurd h (by simp)
  case h_1 xs hxs =>
    have hm : m = ⟨xmlExtract "thoughts" text, xmlExtract "tool" text, xs,
        if pyTruthy (xmlExtract "response" text) then xmlExtract "response" text
        else xmlExtract "thoughts" text⟩ := by
      cases h; rfl
    subst hm
    constructor
    · intro ht
      by_cases hr : pyTruthy (xmlExtract "response" text)
      · simp [StructuredMessage.is_valid, ht, hr]
      · simp [StructuredMessage.is_valid, ht, hr]
    · intro hinv
      by_cases ht : pyTruthy (xmlExtract "thoughts" text)
      · exfalso
        by_cases hr : pyTruthy (xmlExtract "response" text) <;>
          simp [StructuredMessage.is_valid, ht, hr] at hinv
      · exact (pyTruthy_eq_false_iff _).1 (by simpa using ht)

/-- Witness for C10 at a concrete tag-variant reply. -/
theorem C10_xml_nonempty_thoughts_valid_witness :
    (StructuredMessage.mk (some "hi") none [] (some "hi")).is_valid = true :=
  (C10_xml_nonempty_thoughts_valid "<thoughts>hi</thoughts>"
    ⟨some "hi", none, [], some "hi"⟩ (by decide)).1 (by decide)

/-- An `Optional[str]` field validates exactly on the accepted shapes. -/
theorem pyFieldToOptStr_ok_iff (o : Option JValue) :
    (∃ r, pyFieldToOptStr o = .ok r) ↔ OptStrOk o := by
  cases o with
  | none => simp [pyFieldToOptStr, OptStrOk]
  | some v => cases v <;> simp [pyFieldToOptStr, OptStrOk]

/-- The `list[Any]` field validates exactly on present array values. -/
theorem pyFieldToList_ok_iff (o : Option JValue) :
    (∃ r, pyFieldToList o = .ok r) ↔ ListOk o := by
  cases o with
  | none => simp [pyFieldToList, ListOk]
  | some v =>
    cases hv : jArrToList v with
    | none => simp [pyFieldToList, ListOk, hv]
    | some xs => simp [pyFieldToList, ListOk, hv]

/-- `JSONConversationProtocol.parse` succeeds exactly when the text is a JSON
object whose four field lookups all validate, and the message is exactly the
validated fields. -/
theorem json_parse_ok_iff (text : String) (m : StructuredMessage) :
    JSONConversationProtocol.parse text = .ok m ↔
    ∃ data, jloads text = .ok data ∧ jIsObjB data = true ∧
      pyFieldToOptStr (dgetJ data "thoughts") = .ok m.thoughts ∧
      pyFieldToOptStr (dgetJ data "tool") = .ok m.tool ∧
      pyFieldToList (dgetJ data "tool_args") = .ok m.tool_args ∧
      pyFieldToOptStr (dgetJ data "response") = .ok m.response := by
  simp only [JSONConversationProtocol.parse]
  rcases hl : jloads text with e | data
  · simp
  · simp only [Except.ok.injEq]
    by_cases hobj : jIsObjB data
    · simp only [hobj, if_true]
      constructor
      · intro h
        split at h
        · rename_i th tv ta rv hth htv hta hrv
          cases h
          exact ⟨data, rfl, hobj, hth, htv, hta, hrv⟩
        · exact absurd h (by simp)
      · rintro ⟨data', hd, _, hth, htv, hta, hrv⟩
        cases hd
        rw [hth, htv, hta, hrv]
    · constructor
      · intro h
        simp [hobj] at h
      · rintro ⟨data', hd, hobj', _⟩
        cases hd
        exact absurd hobj' hobj

/-- Claim C3 (amended): the response-from-thoughts fallback belongs to the
tag-delimited variant only — any tag-variant reply whose response tag is
absent or empty parses with `response = thoughts`, and the engine's terminal
value for the thoughts-only `need date` reply is `"need date"`; the
JSON-object variant performs no fallback (an absent or null `response` key
stays `None`), so its analogous `need date` reply is invalid and fatal. -/
theorem C3_response_fallback :
    (∀ (text : String) (m : StructuredMessage),
      XMLConversationProtocol.parse text = .ok m →
      pyTruthy (xmlExtract "response" text) = false →
      m.response = m.thoughts) ∧
    LLM.chat xmlProtocol [] ["<thoughts>need date</thoughts>"] [] "q" "user"
      = (.ok ⟨some "need date", none, [], some "need date"⟩,
         [⟨"user", "q"⟩, ⟨"assistant", "<thoughts>need date</thoughts>"⟩], []) ∧
    (∀ (text : String) (m : StructuredMessage) (data : JValue),
      JSONConversationProtocol.parse text = .ok m →
      jloads text = .ok data →
      (dgetJ data "response" = none ∨ dgetJ data "response" = some .null) →
      m.response = none) ∧
    JSONConversationProtocol.parse needDateJson = .ok ⟨some "need date", none, [], none⟩ := by
  refine ⟨?_, by decide, ?_, by decide⟩
  · intro text m h hr
    simp only [XMLConversationProtocol.parse] at h
    split at h
    · cases h
      simp [hr]
    · exact absurd h (by simp)
  · intro text m data h hload hresp
    obtain ⟨data', hd, _, _, _, _, hrv⟩ := (json_parse_ok_iff text m).1 h
    rw [hload] at hd
    cases hd
    have hr : pyFieldToOptStr (dgetJ data "response") = .ok none := by
      rcases hresp with hresp | hresp <;> rw [hresp] <;> rfl
    rw [hr] at hrv
    exact (Except.ok.inj hrv).symm

/-- Witness for C3 at a concrete tag-variant reply without a response tag. -/
theorem C3_response_fallback_witness :
    (StructuredMessage.mk (some "x") none [] (some "x")).response
      = (StructuredMessage.mk (some "x") none [] (some "x")).thoughts :=
  C3_response_fallback.1 "<thoughts>x</thoughts>" ⟨some "x", none, [], some "x"⟩
    (by decide) (by decide)

/-- Claim C4 (amended): the parse-failure asymmetry holds with one carve-out
on the tag side.  The tag-delimited variant fails exactly when the
`tool_args` tag content decodes as JSON to a non-array (pydantic rejection);
a missing tag yields absent fields and malformed JSON inside `tool_args`
degrades to `[]` without error.  The JSON-object variant fails on every text
that is not well-formed JSON (and concretely on the analogous malformed
payload). -/
theorem C4_parse_failure_asymmetry :
    (∀ text : String,
      (∃ e, XMLConversationProtocol.parse text = .error e) ↔
        jArrToList (xmlArgsVal text) = none) ∧
    (∀ text : String,
      jArrToList (xmlArgsVal text) = none ↔
        ∃ s v, xmlExtract "tool_args" text = some s ∧ jloads s = .ok v ∧
          jArrToList v = none) ∧
    XMLConversationProtocol.parse "<thoughts>t</thoughts><tool_args>[broken</tool_args>"
      = .ok ⟨some "t", none, [], some "t"⟩ ∧
    (∀ (text : String) (e : String), jloads text = .error e →
      JSONConversationProtocol.parse text = .error "JSONDecodeError") ∧
    JSONConversationProtocol.parse "[broken" = .error "JSONDecodeError" := by
  refine ⟨?_, ?_, by decide, ?_, by decide⟩
  · intro text
    simp only [XMLConversationProtocol.parse]
    rcases hv : jArrToList (xmlArgsVal text) with _ | xs <;> simp
  · intro text
    simp only [xmlArgsVal]
    rcases hx : xmlExtract "tool_args" text with _ | s
    · simp [jArrToList]
    · rcases hl : jloads s with e | v
      · simp [jArrToList, hl]
      · simp [hl]
  · intro text e h
    simp [JSONConversationProtocol.parse, h]

/-- Witness for C4 at a concrete malformed JSON text. -/
theorem C4_parse_failure_asymmetry_witness :
    JSONConversationProtocol.parse "nope" = .error "JSONDecodeError" :=
  C4_parse_failure_asymmetry.2.2.2.1 "nope" "JSONDecodeError" (by decide)

/-- Claim C5 (amended): parsing a well-formed JSON object succeeds exactly
when `tool_args` is present with an array value and the other three keys,
when present, hold strings or null — the keys `thoughts`, `tool`, `response`
are optional but `tool_args` is not.  Serialization always emits the
four-key object (source order, `null` for each absent field) in both plain
and pretty form. -/
theorem C5_json_key_optionality :
    (∀ (text : String) (data : JValue), jloads text = .ok data → jIsObjB data = true →
      ((∃ m, JSONConversationProtocol.parse text = .ok m) ↔
        (OptStrOk (dgetJ data "thoughts") ∧ OptStrOk (dgetJ data "tool") ∧
         ListOk (dgetJ data "tool_args") ∧ OptStrOk (dgetJ data "response")))) ∧
    (∀ (m : StructuredMessage) (nl : Bool),
      JSONConversationProtocol.serialize m nl
        = .ok (pyJsonDumps false (if nl then some 0 else none) (msgObj m))) ∧
    (∀ m : StructuredMessage, objKeys (msgObj m) = ["thoughts", "tool", "tool_args", "response"]) ∧
    (∀ m : StructuredMessage, m.thoughts = none → dgetJ (msgObj m) "thoughts" = some .null) ∧
    (∀ m : StructuredMessage, m.tool = none → dgetJ (msgObj m) "tool" = some .null) ∧
    (∀ m : StructuredMessage, m.response = none → dgetJ (msgObj m) "response" = some .null) := by
  refine ⟨?_, fun m nl => rfl, fun m => rfl, ?_, ?_, ?_⟩
  · intro text data hload hobj
    constructor
    · rintro ⟨m, hm⟩
      obtain ⟨data', hd, _, hth, htv, hta, hrv⟩ := (json_parse_ok_iff text m).1 hm
      rw [hload] at hd
      cases hd
      exact ⟨(pyFieldToOptStr_ok_iff _).1 ⟨_, hth⟩, (pyFieldToOptStr_ok_iff _).1 ⟨_, htv⟩,
        (pyFieldToList_ok_iff _).1 ⟨_, hta⟩, (pyFieldToOptStr_ok_iff _).1 ⟨_, hrv⟩⟩
    · rintro ⟨hth, htv, hta, hrv⟩
      obtain ⟨th, hth'⟩ := (pyFieldToOptStr_ok_iff _).2 hth
      obtain ⟨tv, htv'⟩ := (pyFieldToOptStr_ok_iff _).2 htv
      obtain ⟨ta, hta'⟩ := (pyFieldToList_ok_iff _).2 hta
      obtain ⟨rv, hrv'⟩ := (pyFieldToOptStr_ok_iff _).2 hrv
      exact ⟨⟨th, tv, ta, rv⟩, (json_parse_ok_iff text _).2
        ⟨data, hload, hobj, hth', htv', hta', hrv'⟩⟩
  · intro m h
    simp [msgObj, dgetJ, h, jOfOpt]
  · intro m h
    simp [msgObj, dgetJ, h, jOfOpt]
  · intro m h
    simp [msgObj, dgetJ, h, jOfOpt]

/-- Witness for C5: an object carrying only `tool_args` parses successfully. -/
theorem C5_json_key_optionality_witness :
    ∃ m, JSONConversationProtocol.parse "\x7b\"tool_args\": []\x7d" = .ok m :=
  (C5_json_key_optionality.1 "\x7b\"tool_args\": []\x7d"
      (.objCons "tool_args" .arrNil .objNil) (by decide) (by decide)).mpr
    ⟨Or.inl (by decide), Or.inl (by decide),
     ⟨.arrNil, [], by decide, by decide⟩, Or.inl (by decide)⟩

/-- A chat run consumes replies monotonically: the unconsumed stream is no
longer than the input stream. -/
theorem chat_remaining_le (proto : ConversationProtocol) (tools : List LLMTool) :
    ∀ (replies : List String) (history : List ChatEntry) (prompt role : String),
      (LLM.chat proto tools replies history prompt role).2.2.length ≤ replies.length := by
  intro replies
  induction replies with
  | nil => intro history prompt role; simp [LLM.chat]
  | cons reply rest ih =>
    intro history prompt role
    simp only [LLM.chat]
    repeat' split
    all_goals first
      | exact Nat.le_succ_of_le (ih _ _ _)
      | exact Nat.le_succ _

/-- One engine turn either ends at once with a non-backend outcome after
appending exactly the inbound and assistant entries, or continues recursively
on the grown transcript. -/
theorem chat_step (proto : ConversationProtocol) (tools : List LLMTool)
    (reply : String) (rest : List String) (history : List ChatEntry) (prompt role : String) :
    (∃ out, out ≠ ChatOutcome.backendErr ∧
      LLM.chat proto tools (reply :: rest) history prompt role
        = (out, history ++ [⟨role, prompt⟩, ⟨"assistant", reply⟩], rest)) ∨
    (∃ s, LLM.chat proto tools (reply :: rest) history prompt role
        = LLM.chat proto tools rest (history ++ [⟨role, prompt⟩, ⟨"assistant", reply⟩]) s "user") := by
  simp only [LLM.chat]
  repeat' split
  all_goals first
    | (left; exact ⟨_, by simp, rfl⟩)
    | (right; exact ⟨_, rfl⟩)

/-- Claim C7: the transcript is append-only — a chat run only ever appends to
the given history, each consumed backend reply contributes exactly one
inbound entry followed by one assistant entry, so a run that consumes `N`
replies starting from an empty history leaves exactly `2N` entries (the lone
extra inbound entry arises only when the backend itself fails mid-round). -/
theorem C7_transcript_append_only (proto : ConversationProtocol) (tools : List LLMTool) :
    ∀ (replies : List String) (history : List ChatEntry) (prompt role : String),
      ∃ ps : List (ChatEntry × ChatEntry),
        ps.length = replies.length
          - (LLM.chat proto tools replies history prompt role).2.2.length ∧
        (∀ pr ∈ ps, pr.2.role = "assistant") ∧
        ((LLM.chat proto tools replies history prompt role).2.1
            = history ++ (ps.map (fun pr => [pr.1, pr.2])).flatten ∨
         ((LLM.chat proto tools replies history prompt role).1 = .backendErr ∧
          ∃ entry, (LLM.chat proto tools replies history prompt role).2.1
            = history ++ (ps.map (fun pr => [pr.1, pr.2])).flatten ++ [entry])) := by
  intro replies
  induction replies with
  | nil =>
    intro history prompt role
    exact ⟨[], by simp [LLM.chat], by simp,
      Or.inr ⟨rfl, ⟨⟨role, prompt⟩, by simp [LLM.chat]⟩⟩⟩
  | cons reply rest ih =>
    intro history prompt role
    rcases chat_step proto tools reply rest history prompt role with ⟨out, hout, heq⟩ | ⟨s, heq⟩
    · refine ⟨[(⟨role, prompt⟩, ⟨"assistant", reply⟩)], ?_, by simp, ?_⟩
      · rw [heq]
        simp
      · left
        rw [heq]
        simp
    · obtain ⟨ps', hlen, hroles, hhist⟩ :=
        ih (history ++ [⟨role, prompt⟩, ⟨"assistant", reply⟩]) s "user"
      have hle := chat_remaining_le proto tools rest
        (history ++ [⟨role, prompt⟩, ⟨"assistant", reply⟩]) s "user"
      refine ⟨(⟨role, prompt⟩, ⟨"assistant", reply⟩) :: ps', ?_, ?_, ?_⟩
      · rw [heq]
        simp only [List.length_cons, hlen]
        omega
      · intro pr hpr
        rcases List.mem_cons.1 hpr with h | h
        · rw [h]
        · exact hroles pr h
      · rw [heq]
        rcases hhist with h | ⟨hb, entry, h⟩
        · left
          rw [h]
          simp
        · right
          exact ⟨hb, ⟨entry, by rw [h]; simp⟩⟩

/-- Claim C8: for a backend whose pages at offsets 0–96 all report maximum
offset 96 with stride 32 (so offsets 64 and 96 are re-discovered by several
pages), the synchronous search fetches exactly offsets 0, 32, 64, 96, once
each and in that order, and — only after processing every fetched page —
returns the per-offset results concatenated in ascending offset order. -/
theorem C8_paginated_fetch {ρ : Type} (page : Nat → List ρ × Nat)
    (h0 : (page 0).2 = 96) (h32 : (page 32).2 = 96)
    (h64 : (page 64).2 = 96) (h96 : (page 96).2 = 96) :
    search_files page 9
      = some ([0, 32, 64, 96],
          (page 0).1 ++ ((page 32).1 ++ ((page 64).1 ++ ((page 96).1 ++ [])))) := by
  obtain ⟨f0, hf0⟩ : ∃ f, page 0 = (f, 96) :=
    ⟨(page 0).1, by rw [Prod.ext_iff]; exact ⟨rfl, h0⟩⟩
  obtain ⟨f32, hf32⟩ : ∃ f, page 32 = (f, 96) :=
    ⟨(page 32).1, by rw [Prod.ext_iff]; exact ⟨rfl, h32⟩⟩
  obtain ⟨f64, hf64⟩ : ∃ f, page 64 = (f, 96) :=
    ⟨(page 64).1, by rw [Prod.ext_iff]; exact ⟨rfl, h64⟩⟩
  obtain ⟨f96, hf96⟩ : ∃ f, page 96 = (f, 96) :=
    ⟨(page 96).1, by rw [Prod.ext_iff]; exact ⟨rfl, h96⟩⟩
  rw [hf0, hf32, hf64, hf96]
  simp only [search_files, searchGo, hf0, hf32, hf64, hf96]
  norm_num [pyRange32, List.range', sortNat, insertSorted, accGet]

/-- Witness for C8 on a concrete four-page backend fixture. -/
theorem C8_paginated_fetch_witness :
    search_files (fun o => ([o], 96)) 9
      = some ([0, 32, 64, 96], [0] ++ ([32] ++ ([64] ++ ([96] ++ [])))) :=
  C8_paginated_fetch (fun o => ([o], 96)) rfl rfl rfl rfl

theorem skipWs_append_of_ws (w l : List Char) (h : ∀ c ∈ w, jWs c = true) :
    skipWs (w ++ l) = skipWs l := by
  induction w with
  | nil => rfl
  | cons c t ih =>
    simp only [List.cons_append, skipWs, List.dropWhile_cons, h c (by simp)]
    exact ih (fun c hc => h c (by simp [hc]))

theorem skipWs_cons_neg (c : Char) (l : List Char) (h : jWs c = false) :
    skipWs (c :: l) = c :: l := by
  simp [skipWs, List.dropWhile_cons, h]

theorem padOpen_ws (i : Option Nat) : ∀ c ∈ padOpen i, jWs c = true := by
  cases i with
  | none => simp [padOpen]
  | some n =>
    intro c hc
    rcases List.mem_cons.1 hc with h | h
    · simp [h, jWs]
    · have hc' : c = ' ' := List.eq_of_mem_replicate (by simpa [spacesL] using h)
      subst hc'
      rfl

theorem padSep_ws (i : Option Nat) : ∀ c ∈ padSep i, jWs c = true := by
  cases i with
  | none => simp [padSep, jWs]
  | some n =>
    intro c hc
    rcases List.mem_cons.1 hc with h | h
    · simp [h, jWs]
    · have hc' : c = ' ' := List.eq_of_mem_replicate (by simpa [spacesL] using h)
      subst hc'
      rfl

theorem padClose_ws (i : Option Nat) : ∀ c ∈ padClose i, jWs c = true := by
  cases i with
  | none => simp [padClose]
  | some n =>
    intro c hc
    rcases List.mem_cons.1 hc with h | h
    · simp [h, jWs]
    · have hc' : c = ' ' := List.eq_of_mem_replicate (by simpa [spacesL] using h)
      subst hc'
      rfl

theorem escChar_length_pos (ea : Bool) (c : Char) : 1 ≤ (escChar ea c).length := by
  unfold escChar
  repeat' split
  all_goals simp [uEsc, hex4]

theorem length_le_escBody (ea : Bool) : ∀ cs : List Char, cs.length ≤ (escBody ea cs).length := by
  intro cs
  induction cs with
  | nil => simp [escBody]
  | cons c t ih =>
    have := escChar_length_pos ea c
    simp only [escBody, List.length_append, List.length_cons]
    omega

theorem jsize_pos (v : JValue) : 1 ≤ jsize v := by
  cases v <;> simp [jsize] <;> omega

theorem ws_not_numChar (c : Char) (h : jWs c = true) : isNumChar c = false := by
  have h' : ((c = ' ' ∨ c = '\t') ∨ c = '\n') ∨ c = '\r' := by
    simpa [jWs] using h
  rcases h' with ((rfl | rfl) | rfl) | rfl <;> rfl

theorem numChar_not_ws (c : Char) (h : isNumChar c = true) : jWs c = false := by
  by_contra hw
  have := ws_not_numChar c (by revert hw; cases jWs c <;> simp)
  rw [this] at h
  exact absurd h (by simp)

theorem intPart_head (c : Char) (r : List Char) (h : intPart (c :: r) = true) :
    c.isDigit = true := by
  by_cases hc : c = '0'
  · subst hc
    rfl
  · unfold intPart at h
    split at h
    · rename_i heq
      cases heq
      rfl
    · rename_i c' r' heq
      cases heq
      exact (Bool.and_eq_true _ _ ▸ h).1
    · simp at h

theorem numTok_shape (t : List Char) (h : isNumTokL t = true) :
    (∃ d r, t = d :: r ∧ d.isDigit = true) ∨
    (∃ d r, t = '-' :: d :: r ∧ d.isDigit = true) := by
  cases t with
  | nil => simp [isNumTokL, intPart] at h
  | cons c r =>
    unfold isNumTokL at h
    split at h
    · rename_i rest heq
      injection heq with h1 h2
      subst h1
      subst h2
      right
      cases r with
      | nil => simp [intPart] at h
      | cons d r2 => exact ⟨d, r2, rfl, intPart_head d r2 h⟩
    · left
      exact ⟨c, r, rfl, intPart_head c r h⟩

theorem takeWhile_all_append_stop (p : Char → Bool) :
    ∀ (tok rest : List Char), tok.all p = true →
      (match rest with | [] => True | c :: _ => p c = false) →
      (tok ++ rest).takeWhile p = tok := by
  intro tok
  induction tok with
  | nil =>
    intro rest _ hstop
    cases rest with
    | nil => rfl
    | cons c r =>
      simp only [List.nil_append, List.takeWhile_cons]
      simp_all
  | cons c t ih =>
    intro rest hall hstop
    rw [List.all_cons] at hall
    obtain ⟨hc, ht⟩ := Bool.and_eq_true _ _ ▸ hall
    simp [List.takeWhile_cons, hc, ih rest ht hstop]

theorem jemit_top_head (ea : Bool) (ind : Option Nat) (v : JValue) (hwf : jwf v = true) :
    ∃ c t, jemit ea .top ind v = c :: t ∧ jWs c = false ∧ c ≠ ']' := by
  cases v with
  | null => exact ⟨'n', _, rfl, by decide, by decide⟩
  | bool b =>
    cases b
    · exact ⟨'f', _, rfl, by decide, by decide⟩
    · exact ⟨'t', _, rfl, by decide, by decide⟩
  | num t =>
    have hwf' : (isNumTokL t.data && t.data.all isNumChar) = true := by simpa [jwf] using hwf
    have htok : isNumTokL t.data = true := (Bool.and_eq_true _ _ ▸ hwf').1
    rcases numTok_shape t.data htok with ⟨d, r, heq, hd⟩ | ⟨d, r, heq, hd⟩
    · refine ⟨d, r, by simp [jemit, heq], numChar_not_ws d (by simp [isNumChar, hd]), ?_⟩
      intro hne
      subst hne
      exact absurd hd (by decide)
    · exact ⟨'-', d :: r, by simp [jemit, heq], by decide, by decide⟩
  | str s => exact ⟨'"', _, rfl, by decide, by decide⟩
  | arrNil => exact ⟨'[', _, rfl, by decide, by decide⟩
  | arrCons h t => exact ⟨'[', _, rfl, by decide, by decide⟩
  | objNil => exact ⟨lbrace, _, rfl, by decide, by decide⟩
  | objCons k v2 t => exact ⟨lbrace, _, rfl, by decide, by decide⟩
theorem hexDigVal_escHexDig (d : Nat) (h : d < 16) : hexDigVal (escHexDig d) = some d := by
  interval_cases d <;> rfl

theorem parse4Hex_hex4 (n : Nat) (h : n < 65536) (r : List Char) :
    parse4Hex (hex4 n ++ r) = some (n, r) := by
  have e3 := hexDigVal_escHexDig (n / 4096 % 16) (Nat.mod_lt _ (by norm_num))
  have e2 := hexDigVal_escHexDig (n / 256 % 16) (Nat.mod_lt _ (by norm_num))
  have e1 := hexDigVal_escHexDig (n / 16 % 16) (Nat.mod_lt _ (by norm_num))
  have e0 := hexDigVal_escHexDig (n % 16) (Nat.mod_lt _ (by norm_num))
  simp only [hex4, List.cons_append, List.nil_append, parse4Hex, e3, e2, e1, e0]
  congr 1
  rw [Prod.ext_iff]
  constructor
  · omega
  · rfl

theorem parseStrBody_escBody :
    ∀ (cs rest : List Char) (fuel : Nat), cs.length + 1 ≤ fuel →
      parseStrBody fuel (escBody false cs ++ ('"' :: rest)) = .ok (cs, rest) := by
  intro cs
  induction cs with
  | nil =>
    intro rest fuel hf
    obtain ⟨f, rfl⟩ : ∃ f, fuel = f + 1 := ⟨fuel - 1, by omega⟩
    simp [escBody, parseStrBody]
  | cons c cs ih =>
    intro rest fuel hf
    obtain ⟨f, rfl⟩ : ∃ f, fuel = f + 1 := ⟨fuel - 1, by omega⟩
    have hf' : cs.length + 1 ≤ f := by simp only [List.length_cons] at hf; omega
    have hrec := ih rest f hf'
    simp only [escBody, List.append_assoc]
    by_cases h1 : c = '"'
    · subst h1
      simp [escChar, parseStrBody, escNamed, hrec]
    · by_cases h2 : c = '\\'
      · subst h2
        simp [escChar, parseStrBody, escNamed, hrec]
      · by_cases h3 : c = '\n'
        · subst h3
          simp [escChar, parseStrBody, escNamed, hrec]
        · by_cases h4 : c = '\t'
          · subst h4
            simp [escChar, parseStrBody, escNamed, hrec]
          · by_cases h5 : c = '\r'
            · subst h5
              simp [escChar, parseStrBody, escNamed, hrec]
            · by_cases h6 : c = Char.ofNat 8
              · subst h6
                simp [escChar, parseStrBody, escNamed, hrec]
              · by_cases h7 : c = Char.ofNat 12
                · subst h7
                  simp [escChar, parseStrBody, escNamed, hrec]
                · by_cases h8 : c.toNat < 32
                  · have hlt : c.toNat < 65536 := by omega
                    have hp4 := parse4Hex_hex4 c.toNat hlt (escBody false cs ++ ('"' :: rest))
                    have hs1 : ¬(55296 ≤ c.toNat ∧ c.toNat < 56320) := by omega
                    have hs2 : ¬(56320 ≤ c.toNat ∧ c.toNat < 57344) := by omega
                    simp [escChar, h1, h2, h3, h4, h5, h6, h7, h8, uEsc, parseStrBody,
                      hp4, hs1, hs2, hrec, Char.ofNat_toNat]
                  · simp [escChar, h1, h2, h3, h4, h5, h6, h7, h8, parseStrBody, hrec]

theorem digit_ne (d : Char) (hd : d.isDigit = true) (c : Char) (hc : c.isDigit = false) :
    ¬(d = c) := by
  intro h
  subst h
  simp [hd] at hc

theorem beq_digit_false (c d : Char) (hd : d.isDigit = true) (hc : c.isDigit = false) :
    (c == d) = false := by
  rw [beq_eq_false_iff_ne]
  intro h
  subst h
  simp [hd] at hc

theorem parseF_val_num (f : Nat) (t : String) (ind : Option Nat) (ws rest : List Char)
    (hwf : jwf (.num t) = true) (hws : ∀ c ∈ ws, jWs c = true) (hstop : StopTok rest) :
    parseF (f + 1) .val (ws ++ (jemit false .top ind (.num t) ++ rest))
      = .ok (.num t, rest) := by
  have hwf' : (isNumTokL t.data && t.data.all isNumChar) = true := by simpa [jwf] using hwf
  have htok : isNumTokL t.data = true := (Bool.and_eq_true _ _ ▸ hwf').1
  have hall : t.data.all isNumChar = true := (Bool.and_eq_true _ _ ▸ hwf').2
  have htake : (t.data ++ rest).takeWhile isNumChar = t.data :=
    takeWhile_all_append_stop isNumChar t.data rest hall hstop
  have hdrop : (t.data ++ rest).drop t.data.length = rest := List.drop_left t.data rest
  have hmk : String.mk t.data = t := rfl
  rcases numTok_shape t.data htok with ⟨d, r, heq, hd⟩ | ⟨d, r, heq, hd⟩
  · have hskip : skipWs (ws ++ (t.data ++ rest)) = d :: (r ++ rest) := by
      rw [skipWs_append_of_ws _ _ hws, heq, List.cons_append,
        skipWs_cons_neg _ _ (numChar_not_ws d (by simp [isNumChar, hd]))]
    simp only [jemit, parseF, hskip]
    rw [if_neg (digit_ne d hd '"' (by decide)), if_neg (digit_ne d hd '[' (by decide)),
      if_neg (digit_ne d hd lbrace (by decide))]
    simp only [trueTok, falseTok, nullTok, nanTok, infTok, negInfTok, List.isPrefixOf,
      beq_digit_false 't' d hd (by decide), beq_digit_false 'f' d hd (by decide),
      beq_digit_false 'n' d hd (by decide), beq_digit_false 'N' d hd (by decide),
      beq_digit_false 'I' d hd (by decide), beq_digit_false '-' d hd (by decide),
      Bool.false_and, if_neg (by simp : ¬(false = true))]
    rw [← List.cons_append, ← heq, htake, htok, if_pos rfl, hdrop, hmk]
  · have hskip : skipWs (ws ++ (t.data ++ rest)) = '-' :: (d :: (r ++ rest)) := by
      rw [skipWs_append_of_ws _ _ hws, heq, List.cons_append, List.cons_append,
        skipWs_cons_neg _ _ (by decide : jWs '-' = false)]
    simp only [jemit, parseF, hskip]
    rw [if_neg (by decide : ¬('-' = '"')), if_neg (by decide : ¬('-' = '[')),
      if_neg (by decide : ¬('-' = lbrace))]
    simp only [trueTok, falseTok, nullTok, nanTok, infTok, negInfTok, List.isPrefixOf,
      (by decide : (('t' : Char) == '-') = false), (by decide : (('f' : Char) == '-') = false),
      (by decide : (('n' : Char) == '-') = false), (by decide : (('N' : Char) == '-') = false),
      (by decide : (('I' : Char) == '-') = false),
      (by decide : (('-' : Char) == '-') = true),
      beq_digit_false 'I' d hd (by decide),
      Bool.false_and, Bool.true_and, if_neg (by simp : ¬(false = true))]
    rw [show ('-' :: (d :: (r ++ rest))) = t.data ++ rest by rw [heq]; rfl, htake, htok,
      if_pos rfl, hdrop, hmk]

theorem parseF_val_null (f : Nat) (ind : Option Nat) (ws rest : List Char)
    (hws : ∀ c ∈ ws, jWs c = true) :
    parseF (f + 1) .val (ws ++ (jemit false .top ind .null ++ rest)) = .ok (.null, rest) := by
  have hskip : skipWs (ws ++ (jemit false .top ind .null ++ rest))
      = 'n' :: 'u' :: 'l' :: 'l' :: rest := by
    rw [skipWs_append_of_ws _ _ hws]
    simp [jemit, nullTok, skipWs, List.dropWhile_cons, jWs]
  simp only [parseF, hskip]
  simp [trueTok, falseTok, nullTok, nanTok, infTok, negInfTok, lbrace, List.isPrefixOf]

theorem parseF_val_bool (f : Nat) (b : Bool) (ind : Option Nat) (ws rest : List Char)
    (hws : ∀ c ∈ ws, jWs c = true) :
    parseF (f + 1) .val (ws ++ (jemit false .top ind (.bool b) ++ rest))
      = .ok (.bool b, rest) := by
  cases b with
  | false =>
    have hskip : skipWs (ws ++ (jemit false .top ind (.bool false) ++ rest))
        = 'f' :: 'a' :: 'l' :: 's' :: 'e' :: rest := by
      rw [skipWs_append_of_ws _ _ hws]
      simp [jemit, falseTok, skipWs, List.dropWhile_cons, jWs]
    simp only [parseF, hskip]
    simp [trueTok, falseTok, nullTok, nanTok, infTok, negInfTok, lbrace, List.isPrefixOf]
  | true =>
    have hskip : skipWs (ws ++ (jemit false .top ind (.bool true) ++ rest))
        = 't' :: 'r' :: 'u' :: 'e' :: rest := by
      rw [skipWs_append_of_ws _ _ hws]
      simp [jemit, trueTok, skipWs, List.dropWhile_cons, jWs]
    simp only [parseF, hskip]
    simp [trueTok, falseTok, nullTok, nanTok, infTok, negInfTok, lbrace, List.isPrefixOf]

theorem parseF_val_str (f : Nat) (s : String) (ind : Option Nat) (ws rest : List Char)
    (hws : ∀ c ∈ ws, jWs c = true) :
    parseF (f + 1) .val (ws ++ (jemit false .top ind (.str s) ++ rest))
      = .ok (.str s, rest) := by
  have hrecast : jemit false .top ind (.str s) ++ rest
      = '"' :: (escBody false s.data ++ ('"' :: rest)) := by
    simp [jemit, jstr]
  have hskip : skipWs (ws ++ (jemit false .top ind (.str s) ++ rest))
      = '"' :: (escBody false s.data ++ ('"' :: rest)) := by
    rw [skipWs_append_of_ws _ _ hws, hrecast, skipWs_cons_neg _ _ (by decide)]
  have hfuel : s.data.length + 1 ≤ (escBody false s.data ++ ('"' :: rest)).length + 1 := by
    have := length_le_escBody false s.data
    simp only [List.length_append, List.length_cons]
    omega
  simp only [parseF, hskip]
  rw [if_pos trivial, parseStrBody_escBody s.data rest _ hfuel]

theorem parseF_val_arrNil (f : Nat) (ind : Option Nat) (ws rest : List Char)
    (hws : ∀ c ∈ ws, jWs c = true) :
    parseF (f + 1) .val (ws ++ (jemit false .top ind .arrNil ++ rest))
      = .ok (.arrNil, rest) := by
  have hskip : skipWs (ws ++ (jemit false .top ind .arrNil ++ rest)) = '[' :: ']' :: rest := by
    rw [skipWs_append_of_ws _ _ hws]
    simp [jemit, skipWs, List.dropWhile_cons, jWs]
  simp only [parseF, hskip]
  rw [skipWs_cons_neg _ _ (by decide : jWs ']' = false), if_neg (by decide : ¬('[' = '"'))]
  simp

theorem parseF_val_objNil (f : Nat) (ind : Option Nat) (ws rest : List Char)
    (hws : ∀ c ∈ ws, jWs c = true) :
    parseF (f + 1) .val (ws ++ (jemit false .top ind .objNil ++ rest))
      = .ok (.objNil, rest) := by
  have hskip : skipWs (ws ++ (jemit false .top ind .objNil ++ rest))
      = lbrace :: rbrace :: rest := by
    rw [skipWs_append_of_ws _ _ hws]
    simp [jemit, skipWs, List.dropWhile_cons, jWs, lbrace, rbrace]
  simp only [parseF, hskip]
  rw [skipWs_cons_neg _ _ (by decide : jWs rbrace = false), if_neg (by decide : ¬(lbrace = '"')),
    if_neg (by decide : ¬(lbrace = '['))]
  simp

theorem jwf_arrCons (h t : JValue) (hw : jwf (.arrCons h t) = true) :
    jwf h = true ∧ jIsArrB t = true ∧ jwf t = true := by
  have hw' : ((jwf h && jIsArrB t) && jwf t) = true := by simpa [jwf] using hw
  obtain ⟨hw1, hw2⟩ := Bool.and_eq_true _ _ ▸ hw'
  obtain ⟨hw3, hw4⟩ := Bool.and_eq_true _ _ ▸ hw1
  exact ⟨hw3, hw4, hw2⟩

theorem jwf_objCons (k : String) (v t : JValue) (hw : jwf (.objCons k v t) = true) :
    jwf v = true ∧ jIsObjB t = true ∧ jwf t = true := by
  have hw' : ((jwf v && jIsObjB t) && jwf t) = true := by simpa [jwf] using hw
  obtain ⟨hw1, hw2⟩ := Bool.and_eq_true _ _ ▸ hw'
  obtain ⟨hw3, hw4⟩ := Bool.and_eq_true _ _ ▸ hw1
  exact ⟨hw3, hw4, hw2⟩

theorem stopTok_pad_close (c : Char) (pad rest : List Char)
    (hpad : ∀ c ∈ pad, jWs c = true) (hc : isNumChar c = false) :
    StopTok (pad ++ c :: rest) := by
  cases pad with
  | nil => exact hc
  | cons p t =>
    show isNumChar p = false
    exact ws_not_numChar p (hpad p (by simp))

theorem stopTok_arrTail (t : JValue) (ind : Option Nat) (pad rest : List Char)
    (harr : jIsArrB t = true) (hpad : ∀ c ∈ pad, jWs c = true) :
    StopTok (jemit false .arrTail ind t ++ (pad ++ ']' :: rest)) := by
  cases t with
  | arrNil =>
    simp only [jemit, List.nil_append]
    exact stopTok_pad_close ']' pad rest hpad (by decide)
  | arrCons h2 t2 =>
    simp only [jemit, List.cons_append]
    show isNumChar ',' = false
    decide
  | null => simp [jIsArrB] at harr
  | bool b => simp [jIsArrB] at harr
  | num s => simp [jIsArrB] at harr
  | str s => simp [jIsArrB] at harr
  | objNil => simp [jIsArrB] at harr
  | objCons k v2 t2 => simp [jIsArrB] at harr

theorem stopTok_objTail (t : JValue) (ind : Option Nat) (pad rest : List Char)
    (hobj : jIsObjB t = true) (hpad : ∀ c ∈ pad, jWs c = true) :
    StopTok (jemit false .objTail ind t ++ (pad ++ rbrace :: rest)) := by
  cases t with
  | objNil =>
    simp only [jemit, List.nil_append]
    exact stopTok_pad_close rbrace pad rest hpad (by decide)
  | objCons k2 v2 t2 =>
    simp only [jemit, List.cons_append]
    show isNumChar ',' = false
    decide
  | null => simp [jIsObjB] at hobj
  | bool b => simp [jIsObjB] at hobj
  | num s => simp [jIsObjB] at hobj
  | str s => simp [jIsObjB] at hobj
  | arrNil => simp [jIsObjB] at hobj
  | arrCons h2 t2 => simp [jIsObjB] at hobj

theorem parse_jemit_master : ∀ fuel : Nat,
    (∀ (v : JValue) (ind : Option Nat) (ws rest : List Char),
      jwf v = true → (∀ c ∈ ws, jWs c = true) → StopTok rest → jsize v ≤ fuel →
      parseF fuel .val (ws ++ (jemit false .top ind v ++ rest)) = .ok (v, rest)) ∧
    (∀ (h t : JValue) (ind : Option Nat) (ws pad rest : List Char),
      jwf h = true → jwf t = true → jIsArrB t = true →
      (∀ c ∈ ws, jWs c = true) → (∀ c ∈ pad, jWs c = true) →
      jsize h + jsize t ≤ fuel →
      parseF fuel .items
        (ws ++ (jemit false .top ind h ++ (jemit false .arrTail ind t ++ (pad ++ ']' :: rest))))
        = .ok (.arrCons h t, rest)) ∧
    (∀ (k : String) (v t : JValue) (ind : Option Nat) (ws pad rest : List Char),
      jwf v = true → jwf t = true → jIsObjB t = true →
      (∀ c ∈ ws, jWs c = true) → (∀ c ∈ pad, jWs c = true) →
      jsize v + jsize t ≤ fuel →
      parseF fuel .members
        (ws ++ (jstr false k ++ (':' :: ' ' :: (jemit false .top ind v ++
          (jemit false .objTail ind t ++ (pad ++ rbrace :: rest))))))
        = .ok (.objCons k v t, rest)) := by
  intro fuel
  induction fuel with
  | zero =>
    refine ⟨?_, ?_, ?_⟩
    · intro v _ _ _ _ _ _ hsz
      exact absurd hsz (by have := jsize_pos v; omega)
    · intro h t _ _ _ _ _ _ _ _ _ hsz
      exact absurd hsz (by have := jsize_pos h; have := jsize_pos t; omega)
    · intro k v t _ _ _ _ _ _ _ _ _ hsz
      exact absurd hsz (by have := jsize_pos v; have := jsize_pos t; omega)
  | succ f ih =>
    obtain ⟨ihP, ihQ, ihR⟩ := ih
    refine ⟨?_, ?_, ?_⟩
    · intro v ind ws rest hwf hws hstop hsz
      cases v with
      | null => exact parseF_val_null f ind ws rest hws
      | bool b => exact parseF_val_bool f b ind ws rest hws
      | num t => exact parseF_val_num f t ind ws rest hwf hws hstop
      | str s => exact parseF_val_str f s ind ws rest hws
      | arrNil => exact parseF_val_arrNil f ind ws rest hws
      | objNil => exact parseF_val_objNil f ind ws rest hws
      | arrCons h t =>
        obtain ⟨hwh, hat, hwt⟩ := jwf_arrCons h t hwf
        obtain ⟨c0, t0, hh, hnws, hne⟩ := jemit_top_head false (ind.map (· + 2)) h hwh
        have hemit : jemit false .top ind (.arrCons h t) ++ rest
            = '[' :: (padOpen (ind.map (· + 2)) ++ (jemit false .top (ind.map (· + 2)) h ++
                (jemit false .arrTail (ind.map (· + 2)) t ++ (padClose ind ++ (']' :: rest))))) := by
          simp [jemit, List.append_assoc]
        have hskip1 : skipWs (ws ++ (jemit false .top ind (.arrCons h t) ++ rest))
            = '[' :: (padOpen (ind.map (· + 2)) ++ (jemit false .top (ind.map (· + 2)) h ++
                (jemit false .arrTail (ind.map (· + 2)) t ++ (padClose ind ++ (']' :: rest))))) := by
          rw [skipWs_append_of_ws _ _ hws, hemit, skipWs_cons_neg _ _ (by decide)]
        have hskip2 : skipWs (padOpen (ind.map (· + 2)) ++ (jemit false .top (ind.map (· + 2)) h ++
              (jemit false .arrTail (ind.map (· + 2)) t ++ (padClose ind ++ (']' :: rest)))))
            = c0 :: (t0 ++ (jemit false .arrTail (ind.map (· + 2)) t ++ (padClose ind ++ (']' :: rest)))) := by
          rw [skipWs_append_of_ws _ _ (padOpen_ws _), hh, List.cons_append,
            skipWs_cons_neg _ _ hnws]
        have hq := ihQ h t (ind.map (· + 2)) [] (padClose ind) rest hwh hwt hat
          (by simp) (padClose_ws _) (by simp [jsize] at hsz; omega)
        simp only [parseF, hskip1, hskip2]
        rw [if_neg (by decide : ¬('[' = '"')), if_pos trivial]
        split
        · rename_i r2 heq
          injection heq with h1 _
          exact absurd h1 hne
        · simp only [List.nil_append] at hq
          rw [hh, List.cons_append] at hq
          exact hq
      | objCons k v2 t =>
        obtain ⟨hwv, hot, hwt⟩ := jwf_objCons k v2 t hwf
        have hemit : jemit false .top ind (.objCons k v2 t) ++ rest
            = lbrace :: (padOpen (ind.map (· + 2)) ++ ('"' :: (escBody false k.data ++
                ('"' :: (':' :: ' ' :: (jemit false .top (ind.map (· + 2)) v2 ++
                  (jemit false .objTail (ind.map (· + 2)) t ++ (padClose ind ++ (rbrace :: rest))))))))) := by
          simp [jemit, jstr, List.append_assoc]
        have hskip1 : skipWs (ws ++ (jemit false .top ind (.objCons k v2 t) ++ rest))
            = lbrace :: (padOpen (ind.map (· + 2)) ++ ('"' :: (escBody false k.data ++
                ('"' :: (':' :: ' ' :: (jemit false .top (ind.map (· + 2)) v2 ++
                  (jemit false .objTail (ind.map (· + 2)) t ++ (padClose ind ++ (rbrace :: rest))))))))) := by
          rw [skipWs_append_of_ws _ _ hws, hemit, skipWs_cons_neg _ _ (by decide)]
        have hskip2 : skipWs (padOpen (ind.map (· + 2)) ++ ('"' :: (escBody false k.data ++
              ('"' :: (':' :: ' ' :: (jemit false .top (ind.map (· + 2)) v2 ++
                (jemit false .objTail (ind.map (· + 2)) t ++ (padClose ind ++ (rbrace :: rest)))))))))
            = '"' :: (escBody false k.data ++
                ('"' :: (':' :: ' ' :: (jemit false .top (ind.map (· + 2)) v2 ++
                  (jemit false .objTail (ind.map (· + 2)) t ++ (padClose ind ++ (rbrace :: rest))))))) := by
          rw [skipWs_append_of_ws _ _ (padOpen_ws _), skipWs_cons_neg _ _ (by decide)]
        have hr := ihR k v2 t (ind.map (· + 2)) [] (padClose ind) rest hwv hwt hot
          (by simp) (padClose_ws _) (by simp [jsize] at hsz; omega)
        simp only [parseF, hskip1, hskip2]
        rw [if_neg (by decide : ¬(lbrace = '"')), if_neg (by decide : ¬(lbrace = '[')),
          if_pos trivial, if_neg (by decide : ¬('"' = rbrace))]
        simp only [List.nil_append, jstr, List.append_assoc, List.cons_append,
          List.singleton_append] at hr
        exact hr
    · intro h t ind ws pad rest hwfh hwft harr hws hpad hsz
      have hstopx : StopTok (jemit false .arrTail ind t ++ (pad ++ ']' :: rest)) :=
        stopTok_arrTail t ind pad rest harr hpad
      have hp := ihP h ind ws (jemit false .arrTail ind t ++ (pad ++ ']' :: rest))
        hwfh hws hstopx (by have := jsize_pos t; omega)
      simp only [parseF, hp]
      cases t with
      | arrNil =>
        have hskip : skipWs (jemit false .arrTail ind .arrNil ++ (pad ++ ']' :: rest))
            = ']' :: rest := by
          simp only [jemit, List.nil_append]
          rw [skipWs_append_of_ws _ _ hpad, skipWs_cons_neg _ _ (by decide)]
        rw [hskip]
        simp
      | arrCons h2 t2 =>
        obtain ⟨hwh2, hat2, hwt2⟩ := jwf_arrCons h2 t2 hwft
        have hskip : skipWs (jemit false .arrTail ind (.arrCons h2 t2) ++ (pad ++ ']' :: rest))
            = ',' :: (padSep ind ++ (jemit false .top ind h2 ++
                (jemit false .arrTail ind t2 ++ (pad ++ ']' :: rest)))) := by
          simp only [jemit, List.cons_append, List.append_assoc]
          rw [skipWs_cons_neg _ _ (by decide)]
        have hq2 := ihQ h2 t2 ind (padSep ind) pad rest hwh2 hwt2 hat2
          (padSep_ws _) hpad (by simp [jsize] at hsz; have := jsize_pos h; omega)
        rw [hskip]
        simp [hq2]
      | null => simp [jIsArrB] at harr
      | bool b => simp [jIsArrB] at harr
      | num s => simp [jIsArrB] at harr
      | str s => simp [jIsArrB] at harr
      | objNil => simp [jIsArrB] at harr
      | objCons k2 va t2 => simp [jIsArrB] at harr
    · intro k v t ind ws pad rest hwfv hwft hobj hws hpad hsz
      have hskip1 : skipWs (ws ++ (jstr false k ++ (':' :: ' ' :: (jemit false .top ind v ++
            (jemit false .objTail ind t ++ (pad ++ rbrace :: rest))))))
          = '"' :: (escBody false k.data ++ ('"' :: (':' :: ' ' :: (jemit false .top ind v ++
              (jemit false .objTail ind t ++ (pad ++ rbrace :: rest)))))) := by
        rw [skipWs_append_of_ws _ _ hws]
        simp only [jstr, List.cons_append, List.append_assoc, List.nil_append,
          List.singleton_append]
        rw [skipWs_cons_neg _ _ (by decide)]
      have hfuel : k.data.length + 1 ≤ (escBody false k.data ++ ('"' :: (':' :: ' ' ::
          (jemit false .top ind v ++ (jemit false .objTail ind t ++ (pad ++ rbrace :: rest)))))).length + 1 := by
        have := length_le_escBody false k.data
        simp only [List.length_append, List.length_cons]
        omega
      have hkey := parseStrBody_escBody k.data (':' :: ' ' :: (jemit false .top ind v ++
        (jemit false .objTail ind t ++ (pad ++ rbrace :: rest)))) _ hfuel
      have hstopx : StopTok (jemit false .objTail ind t ++ (pad ++ rbrace :: rest)) :=
        stopTok_objTail t ind pad rest hobj hpad
      have hp := ihP v ind [' '] (jemit false .objTail ind t ++ (pad ++ rbrace :: rest))
        hwfv (by simp [jWs]) hstopx (by have := jsize_pos t; omega)
      have hskip2 : skipWs (':' :: ' ' :: (jemit false .top ind v ++
          (jemit false .objTail ind t ++ (pad ++ rbrace :: rest))))
          = ':' :: ' ' :: (jemit false .top ind v ++
            (jemit false .objTail ind t ++ (pad ++ rbrace :: rest))) :=
        skipWs_cons_neg _ _ (by decide)
      simp only [List.singleton_append] at hp
      simp only [parseF, hskip1]
      rw [if_pos trivial, hkey]
      simp only [hskip2, hp]
      cases t with
      | objNil =>
        have hskip3 : skipWs (jemit false .objTail ind .objNil ++ (pad ++ rbrace :: rest))
            = rbrace :: rest := by
          simp only [jemit, List.nil_append]
          rw [skipWs_append_of_ws _ _ hpad, skipWs_cons_neg _ _ (by decide)]
        simp only [hskip3]
        simp [rbrace]
      | objCons k2 v2 t2 =>
        obtain ⟨hwv2, hot2, hwt2⟩ := jwf_objCons k2 v2 t2 hwft
        have hskip3 : skipWs (jemit false .objTail ind (.objCons k2 v2 t2) ++ (pad ++ rbrace :: rest))
            = ',' :: (padSep ind ++ (jstr false k2 ++ (':' :: ' ' :: (jemit false .top ind v2 ++
                (jemit false .objTail ind t2 ++ (pad ++ rbrace :: rest)))))) := by
          simp only [jemit, List.cons_append, List.append_assoc]
          rw [skipWs_cons_neg _ _ (by decide)]
        have hr2 := ihR k2 v2 t2 ind (padSep ind) pad rest hwv2 hwt2 hot2
          (padSep_ws _) hpad (by simp [jsize] at hsz; have := jsize_pos v; omega)
        simp only [hskip3]
        simp [hr2]
      | null => simp [jIsObjB] at hobj
      | bool b => simp [jIsObjB] at hobj
      | num s => simp [jIsObjB] at hobj
      | str s => simp [jIsObjB] at hobj
      | arrNil => simp [jIsObjB] at hobj
      | arrCons h2 t2 => simp [jIsObjB] at hobj

/-- The structural size of a well-formed value is bounded by the length of any
of its emissions (top mode), with the tail modes off by one. -/
theorem jsize_le_jemit (v : JValue) : ∀ (ind : Option Nat),
    (jwf v = true → jsize v ≤ (jemit false .top ind v).length) ∧
    (jIsArrB v = true → jwf v = true → jsize v ≤ (jemit false .arrTail ind v).length + 1) ∧
    (jIsObjB v = true → jwf v = true → jsize v ≤ (jemit false .objTail ind v).length + 1) := by
  induction v with
  | null => intro ind; refine ⟨fun _ => by simp [jsize, jemit, nullTok], ?_, ?_⟩ <;>
      (intro h; simp [jIsArrB, jIsObjB] at h)
  | bool b =>
    intro ind
    refine ⟨fun _ => ?_, ?_, ?_⟩
    · cases b <;> simp [jsize, jemit, trueTok, falseTok]
    · intro h; simp [jIsArrB] at h
    · intro h; simp [jIsObjB] at h
  | num t =>
    intro ind
    refine ⟨fun hwf => ?_, ?_, ?_⟩
    · have htok : isNumTokL t.data = true :=
        (Bool.and_eq_true _ _ ▸ (by simpa [jwf] using hwf : (isNumTokL t.data && t.data.all isNumChar) = true)).1
      rcases numTok_shape t.data htok with ⟨d, r, heq, _⟩ | ⟨d, r, heq, _⟩ <;>
        simp [jsize, jemit, heq]
    · intro h; simp [jIsArrB] at h
    · intro h; simp [jIsObjB] at h
  | str s =>
    intro ind
    refine ⟨fun _ => ?_, ?_, ?_⟩
    · simp [jsize, jemit, jstr]
    · intro h; simp [jIsArrB] at h
    · intro h; simp [jIsObjB] at h
  | arrNil =>
    intro ind
    exact ⟨fun _ => by simp [jsize, jemit], fun _ _ => by simp [jsize, jemit],
      fun h => by simp [jIsObjB] at h⟩
  | arrCons h t ihh iht =>
    intro ind
    refine ⟨fun hwf => ?_, fun _ hwf => ?_, fun hx _ => by simp [jIsObjB] at hx⟩
    · obtain ⟨hwh, hat, hwt⟩ := jwf_arrCons h t hwf
      have i1 := (ihh (ind.map (· + 2))).1 hwh
      have i2 := ((iht (ind.map (· + 2))).2.1) hat hwt
      simp only [jsize, jemit, List.length_cons, List.length_append]
      omega
    · obtain ⟨hwh, hat, hwt⟩ := jwf_arrCons h t hwf
      have i1 := (ihh ind).1 hwh
      have i2 := ((iht ind).2.1) hat hwt
      simp only [jsize, jemit, List.length_cons, List.length_append]
      omega
  | objNil =>
    intro ind
    exact ⟨fun _ => by simp [jsize, jemit], fun h => by simp [jIsArrB] at h,
      fun _ _ => by simp [jsize, jemit]⟩
  | objCons k v t ihv iht =>
    intro ind
    refine ⟨fun hwf => ?_, fun hx _ => by simp [jIsArrB] at hx, fun _ hwf => ?_⟩
    · obtain ⟨hwv, hot, hwt⟩ := jwf_objCons k v t hwf
      have i1 := (ihv (ind.map (· + 2))).1 hwv
      have i2 := ((iht (ind.map (· + 2))).2.2) hot hwt
      simp only [jsize, jemit, jstr, List.length_cons, List.length_append]
      omega
    · obtain ⟨hwv, hot, hwt⟩ := jwf_objCons k v t hwf
      have i1 := (ihv ind).1 hwv
      have i2 := ((iht ind).2.2) hot hwt
      simp only [jsize, jemit, jstr, List.length_cons, List.length_append]
      omega

/-- `json.loads` inverts `json.dumps` on well-formed values, for both the
compact and the pretty emission. -/
theorem jloads_pyJsonDumps (v : JValue) (ind : Option Nat) (hwf : jwf v = true) :
    jloads (pyJsonDumps false ind v) = .ok v := by
  have hsz : jsize v ≤ 2 * (jemit false .top ind v).length + 2 := by
    have := (jsize_le_jemit v ind).1 hwf
    omega
  have hmain := (parse_jemit_master (2 * (jemit false .top ind v).length + 2)).1 v ind [] []
    hwf (by simp) trivial hsz
  simp only [List.nil_append, List.append_nil] at hmain
  have hlen : (pyJsonDumps false ind v).length = (jemit false .top ind v).length := rfl
  simp only [jloads, hlen]
  have hdata : (pyJsonDumps false ind v).data = jemit false .top ind v := rfl
  rw [hdata, hmain]
  rfl

/-- Optional-string fields embed as well-formed JSON values. -/
theorem jwf_jOfOpt (o : Option String) : jwf (jOfOpt o) = true := by
  cases o <;> rfl

/-- List-built arrays are well-formed arrays when their elements are. -/
theorem jwf_jOfList (xs : List JValue) (h : ∀ x ∈ xs, jwf x = true) :
    jwf (jOfList xs) = true ∧ jIsArrB (jOfList xs) = true := by
  induction xs with
  | nil => exact ⟨rfl, rfl⟩
  | cons x t ih =>
    obtain ⟨ih1, ih2⟩ := ih (fun y hy => h y (by simp [hy]))
    refine ⟨?_, rfl⟩
    simp [jOfList, jwf, h x (by simp), ih1, ih2]

/-- The serialized message object is well-formed whenever `tool_args` is. -/
theorem jwf_msgObj (m : StructuredMessage) (h : ∀ x ∈ m.tool_args, jwf x = true) :
    jwf (msgObj m) = true := by
  obtain ⟨h1, h2⟩ := jwf_jOfList m.tool_args h
  simp [msgObj, jwf, jIsObjB, jwf_jOfOpt, h1]

/-- Field lookups on the serialized message object. -/
theorem dgetJ_msgObj_thoughts (m : StructuredMessage) :
    dgetJ (msgObj m) "thoughts" = some (jOfOpt m.thoughts) := by
  simp [msgObj, dgetJ]

/-- Field lookups on the serialized message object. -/
theorem dgetJ_msgObj_tool (m : StructuredMessage) :
    dgetJ (msgObj m) "tool" = some (jOfOpt m.tool) := by
  simp [msgObj, dgetJ]

/-- Field lookups on the serialized message object. -/
theorem dgetJ_msgObj_tool_args (m : StructuredMessage) :
    dgetJ (msgObj m) "tool_args" = some (jOfList m.tool_args) := by
  simp [msgObj, dgetJ]

/-- Field lookups on the serialized message object. -/
theorem dgetJ_msgObj_response (m : StructuredMessage) :
    dgetJ (msgObj m) "response" = some (jOfOpt m.response) := by
  simp [msgObj, dgetJ]

/-- Embedded optional strings validate back to themselves. -/
theorem pyFieldToOptStr_jOfOpt (o : Option String) :
    pyFieldToOptStr (some (jOfOpt o)) = .ok o := by
  cases o <;> rfl

/-- Embedded argument lists validate back to themselves. -/
theorem pyFieldToList_jOfList (xs : List JValue) :
    pyFieldToList (some (jOfList xs)) = .ok xs := by
  simp [pyFieldToList, jArrToList_jOfList]

/-- Parsing a serialized message under the JSON-object protocol recovers the
message exactly, for both the plain and the pretty form. -/
theorem json_parse_serialize (m : StructuredMessage) (ind : Option Nat)
    (hargs : ∀ x ∈ m.tool_args, jwf x = true) :
    JSONConversationProtocol.parse (pyJsonDumps false ind (msgObj m)) = .ok m := by
  refine (json_parse_ok_iff _ m).2 ⟨msgObj m, jloads_pyJsonDumps _ ind (jwf_msgObj m hargs),
    rfl, ?_, ?_, ?_, ?_⟩
  · rw [dgetJ_msgObj_thoughts, pyFieldToOptStr_jOfOpt]
  · rw [dgetJ_msgObj_tool, pyFieldToOptStr_jOfOpt]
  · rw [dgetJ_msgObj_tool_args, pyFieldToList_jOfList]
  · rw [dgetJ_msgObj_response, pyFieldToOptStr_jOfOpt]

/-- Claim C2 (amended): the serialize/parse/serialize round trip holds for the
JSON-object variant for every valid message (with well-formed JSON argument
values) and both pretty flags — indeed parse inverts serialize exactly; the
tag-delimited variant has no round trip for the valid messages whose `tool`
is absent, because its serializer raises `AttributeError` on them. -/
theorem C2_serialize_roundtrip :
    (∀ (m : StructuredMessage) (pretty : Bool),
      (∀ x ∈ m.tool_args, jwf x = true) → m.is_valid = true →
      RoundTrips jsonProtocol m pretty) ∧
    (∀ (m : StructuredMessage) (pretty : Bool), m.tool = none →
      ¬ RoundTrips xmlProtocol m pretty) := by
  constructor
  · intro m pretty hargs _
    exact ⟨pyJsonDumps false (if pretty then some 0 else none) (msgObj m), m, rfl,
      json_parse_serialize m _ hargs, rfl⟩
  · intro m pretty htool
    rintro ⟨s, m2, hser, _, _⟩
    simp only [xmlProtocol, XMLConversationProtocol.serialize, htool] at hser
    exact absurd hser (by simp)

/-- Witness for C2: a concrete valid message with `tool` present round trips
under the JSON variant. -/
theorem C2_serialize_roundtrip_witness :
    RoundTrips jsonProtocol ⟨some "t", some "echo", [], none⟩ false :=
  C2_serialize_roundtrip.1 ⟨some "t", some "echo", [], none⟩ false (by simp) (by decide)
